import Mathlib

/-!
Customer handler: enrichment pipeline and lead provisioning.

A shallow embedding of `customer_handler.go` (package `handler`):

* the album-name derivation shared by `Add` and `Lead`,
* the enrichment fan-out / fan-in of `List` (worker function, pool dispatch,
  wait group),
* the lead provisioning loops of `Add` and `Lead` with their persistence tail,
* the handler `Update`, and the store of one customer as the calls of a trace
  leave it.

Go strings are byte sequences; `len` and slicing count bytes.  External
collaborators (repositories, the album service, the clock, the uuid source) are
fields of an environment structure.  Every call a handler makes to the album
service and every write to the store is recorded in a trace, in program order,
together with whether the album service answered without error.
-/

namespace CustomerHandler

/-! ## Go strings -/

/-- A Go string: its bytes, each below 256. -/
abbrev GoString := List Nat

/-- The UTF-8 bytes of a rune as `utf8.AppendRune` writes them; a surrogate or a
value above U+10FFFF is written as U+FFFD. -/
def encodeRune (r : Nat) : GoString :=
  if r ≤ 0x7F then [r]
  else if r ≤ 0x7FF then [0xC0 + r / 64, 0x80 + r % 64]
  else if r > 0x10FFFF ∨ (0xD800 ≤ r ∧ r ≤ 0xDFFF) then [0xEF, 0xBF, 0xBD]
  else if r ≤ 0xFFFF then [0xE0 + r / 4096, 0x80 + r / 64 % 64, 0x80 + r % 64]
  else [0xF0 + r / 262144, 0x80 + r / 4096 % 64, 0x80 + r / 64 % 64, 0x80 + r % 64]

/-- A continuation byte, 0x80..0xBF. -/
def isCont (b : Nat) : Bool := 0x80 ≤ b && b ≤ 0xBF

/-- The function `utf8.DecodeRuneInString` on a non-empty string: the rune at
the front and its width in bytes; an invalid or truncated sequence gives
(U+FFFD, 1). -/
def DecodeRuneInString : GoString → Nat × Nat
  | [] => (0xFFFD, 0)
  | b0 :: rest =>
    if b0 < 0x80 then (b0, 1)
    else
      match rest with
      | b1 :: b2 :: b3 :: _ =>
        if 0xC2 ≤ b0 ∧ b0 ≤ 0xDF ∧ isCont b1 then ((b0 - 0xC0) * 64 + (b1 - 0x80), 2)
        else if 0xE0 ≤ b0 ∧ b0 ≤ 0xEF ∧ isCont b1 ∧ isCont b2
            ∧ (b0 = 0xE0 → 0xA0 ≤ b1) ∧ (b0 = 0xED → b1 ≤ 0x9F) then
          ((b0 - 0xE0) * 4096 + (b1 - 0x80) * 64 + (b2 - 0x80), 3)
        else if 0xF0 ≤ b0 ∧ b0 ≤ 0xF4 ∧ isCont b1 ∧ isCont b2 ∧ isCont b3
            ∧ (b0 = 0xF0 → 0x90 ≤ b1) ∧ (b0 = 0xF4 → b1 ≤ 0x8F) then
          ((b0 - 0xF0) * 262144 + (b1 - 0x80) * 4096 + (b2 - 0x80) * 64 + (b3 - 0x80), 4)
        else (0xFFFD, 1)
      | [b1, b2] =>
        if 0xC2 ≤ b0 ∧ b0 ≤ 0xDF ∧ isCont b1 then ((b0 - 0xC0) * 64 + (b1 - 0x80), 2)
        else if 0xE0 ≤ b0 ∧ b0 ≤ 0xEF ∧ isCont b1 ∧ isCont b2
            ∧ (b0 = 0xE0 → 0xA0 ≤ b1) ∧ (b0 = 0xED → b1 ≤ 0x9F) then
          ((b0 - 0xE0) * 4096 + (b1 - 0x80) * 64 + (b2 - 0x80), 3)
        else (0xFFFD, 1)
      | [b1] =>
        if 0xC2 ≤ b0 ∧ b0 ≤ 0xDF ∧ isCont b1 then ((b0 - 0xC0) * 64 + (b1 - 0x80), 2)
        else (0xFFFD, 1)
      | [] => (0xFFFD, 1)

/-- The loop `for _, c := range s`, with `fuel` bounding the iterations: the
rune at the front, then the runes of the rest. -/
def rangeRunes : Nat → GoString → List Nat
  | 0, _ => []
  | _, [] => []
  | fuel + 1, b :: rest =>
    let d := DecodeRuneInString (b :: rest)
    d.1 :: rangeRunes fuel ((b :: rest).drop d.2)

/-- The runes of a string, each step consuming at least one byte, so that
`len(s)` iterations always reach the end. -/
def decodeRunes (s : GoString) : List Nat := rangeRunes s.length s

/-- The ASCII branch of `strings.ToLower`: `c += 'a' - 'A'` for `'A' ≤ c ≤ 'Z'`. -/
def asciiLower (c : Nat) : Nat := if 65 ≤ c ∧ c ≤ 90 then c + 32 else c

/-- The function `strings.ToLower`.  An all-ASCII string is lowered bytewise;
any other string goes through `strings.Map(unicode.ToLower, s)`, which decodes
each rune, maps it and writes the result.  The rune table `unicode.ToLower` is
the parameter `tl`. -/
def ToLower (tl : Nat → Nat) (s : GoString) : GoString :=
  if s.all (fun c => decide (c < 0x80)) then s.map asciiLower
  else (decodeRunes s).flatMap (fun c => encodeRune (tl c))

/-- The table `unicode.ToLower` on Basic Latin and on the Vietnamese block
U+1EA0..U+1EFF (capital letters at even code points, each followed by its small
letter); the identity elsewhere.  Used to evaluate concrete titles. -/
def toLowerLatinVN (r : Nat) : Nat :=
  if 65 ≤ r ∧ r ≤ 90 then r + 32
  else if 0x1EA0 ≤ r ∧ r ≤ 0x1EFF ∧ r % 2 = 0 then r + 1
  else r

/-- Whether `s` begins with the bytes of `p`. -/
def startsWith : GoString → GoString → Bool
  | _, [] => true
  | [], _ :: _ => false
  | a :: s, b :: p => a == b && startsWith s p

/-- The search loop of `strings.Index`, `n` being the offset of `s` in the
string searched. -/
def indexFrom (sub : GoString) : GoString → Nat → Int
  | [], n => if startsWith [] sub then (n : Int) else -1
  | c :: s, n => if startsWith (c :: s) sub then (n : Int) else indexFrom sub s (n + 1)

/-- The function `strings.Index`: the byte index of the first instance of `sub`
in `s`, or -1. -/
def Index (s sub : GoString) : Int := indexFrom sub s 0

/-- The slice expression `s[:n]`; `none` is the run-time panic for `n > len(s)`. -/
def sliceTo (s : GoString) (n : Nat) : Option GoString :=
  if n ≤ s.length then some (s.take n) else none

/-- The literal `"tỷ"`: `t`, then U+1EF7 in UTF-8. -/
def marker : GoString := [0x74, 0xE1, 0xBB, 0xB7]

/-- The literal `"LEAD - "`. -/
def leadLabel : GoString := [76, 69, 65, 68, 32, 45, 32]

/-- The album-name derivation of `Add` (lines 389-398) and `Lead` (lines 813-823),
the same statements at both places:
cut at the marker found in the lowered title, cap at 90 bytes, put the label in
front.  `none` is the slice panic. -/
def albumName (tl : Nat → Nat) (title : GoString) : Option GoString := do
  let indexHD := Index (ToLower tl title) marker
  let albumName ←
    if indexHD > -1 then (sliceTo title indexHD.toNat).map (fun p => p ++ marker)
    else some title
  let albumName := if albumName.length > 90 then albumName.take 90 else albumName
  some (leadLabel ++ albumName)

/-- The call `strings.Trim(s, cutset)` for an ASCII cutset: leading and trailing
bytes of the cutset are removed. -/
def Trim (s cutset : GoString) : GoString :=
  ((s.dropWhile (fun b => cutset.contains b)).reverse.dropWhile
    (fun b => cutset.contains b)).reverse

/-- The class `\s` of Go regular expressions: tab, newline, form feed, carriage
return, space. -/
def isSpace (b : Nat) : Bool := b == 9 || b == 10 || b == 12 || b == 13 || b == 32

/-- The call `space.ReplaceAllString(s, " ")` for `space = \s+`: every maximal run
of white space becomes one space; `inRun` tells that the byte before was white
space. -/
def replaceSpaces : Bool → GoString → GoString
  | _, [] => []
  | inRun, b :: rest =>
    if isSpace b then (if inRun then replaceSpaces true rest else 32 :: replaceSpaces true rest)
    else b :: replaceSpaces false rest

/-! ## Entities -/

/-- A `time.Time`: Unix seconds and the nanoseconds within that second. -/
structure Time where
  sec : Int
  nsec : Nat
deriving DecidableEq, Repr

/-- The method `Time.Unix`: seconds since the epoch. -/
def Time.Unix (t : Time) : Int := t.sec

/-- The call `t.Round(time.Second)`: to the nearest second, halfway values up. -/
def Time.Round (t : Time) : Time :=
  if 500000000 ≤ t.nsec then { sec := t.sec + 1, nsec := 0 } else { sec := t.sec, nsec := 0 }

/-- The zero `time.Time`, January 1 of year 1. -/
def Time.zero : Time := { sec := -62135596800, nsec := 0 }

/-- The fields of `entity.User` this file names; `Extra` stands for the fields
it never names. -/
structure User where
  ID : GoString
  FullName : GoString
  DeptName : GoString
  Phone : GoString
  Extra : GoString := []
deriving DecidableEq, Repr

/-- The fields of `entity.Bikip` (a product) this file names; `Extra` stands for
the others. -/
structure Bikip where
  ID : GoString
  Title : GoString
  Extra : GoString := []
deriving DecidableEq, Repr

/-- Modelled from the spec: the declaration of the image type is not part of the
file; an image reference has a gallery identifier and the album and category it
is assigned to, and the handlers hold images by reference, so that an assignment
to `img.Album` in a `range` loop is seen through the lead. -/
structure Image where
  GalleryID : GoString
  Album : GoString
  Category : GoString
deriving DecidableEq, Repr

/-- The fields of `entity.CustomerLead` this file names. -/
structure CustomerLead where
  ID : GoString
  CID : GoString
  UserID : GoString
  BikipID : GoString
  Comment : GoString
  Images : List Image
  RegAt : Time
  CreatedAt : Time
  UpdatedAt : Time := Time.zero
  User : Option User := none
  Bikip : Option Bikip := none
deriving DecidableEq, Repr

/-- The type `entity.ConfidenceLead`: a page of leads and the total count. -/
structure ConfidenceLead where
  Items : List CustomerLead
  Total : Int
deriving DecidableEq, Repr

/-- The fields of `entity.Customer` that `List`, `Add` and `Lead` name.  `User`
and `Lead` are the derived fields written by the enrichment. -/
structure Customer where
  ID : GoString
  FullName : GoString := []
  BirthYear : Int := 0
  City : GoString := []
  Address : GoString := []
  LastCMND : GoString := []
  Phone : GoString := []
  Budget : Int := 0
  Note : GoString := []
  Zone : GoString := []
  Province : GoString := []
  Districts : List GoString := []
  UserID : GoString
  DeptID : GoString := []
  CreatedAt : Time := Time.zero
  UpdatedAt : Time := Time.zero
  Album : GoString := []
  LeadAt : Option Time := none
  Status : Int := 0
  User : Option User := none
  Lead : Option ConfidenceLead := none
deriving DecidableEq, Repr

/-- The fields of `entity.CustomerLeadParam` this file names: one lead
submission. -/
structure CustomerLeadParam where
  ID : GoString := []
  BikipID : GoString := []
  Bikip : Bikip := { ID := [], Title := [] }
  Comment : GoString := []
  Images : List Image := []
  RegAt : Time
deriving DecidableEq, Repr

/-- The fields of `entity.CustomerParam` that `Add` reads.  The submissions in
`Leads` are held by reference, as in the `[]*entity.CustomerLeadParam` of `Lead`,
so that `&l.RegAt` is the address of the field of that submission. -/
structure CustomerParam where
  FullName : GoString := []
  BirthYear : Int := 0
  City : GoString := []
  Address : GoString := []
  LastCMND : GoString := []
  Phone : GoString := []
  Budget : Int := 0
  Note : GoString := []
  Province : GoString := []
  Districts : List GoString := []
  Leads : List CustomerLeadParam := []
deriving DecidableEq, Repr

/-- The fields of `auth.Claims` the handlers read. -/
structure Claims where
  ID : GoString
  Dept : GoString := []
  Zone : GoString := []
  City : GoString := []
  Group : Int := 0
deriving DecidableEq, Repr

/-- The `Data` member of a response. -/
inductive Payload
  | empty
  | text (s : GoString)
  | failure (e : String)
  | page (items : List Customer) (total : Int)
deriving DecidableEq, Repr

/-- A call `c.JSON(Status, Response{Code, Message, Data})`; `Arg` is the text
appended to the literal part of the message. -/
structure Response where
  Status : Nat
  Code : Nat
  Message : String
  Arg : GoString := []
  Data : Payload := Payload.empty
deriving DecidableEq, Repr

/-! ## Collaborators -/

/-- The repositories and remote services behind the handler.  A lookup gives
`none` where the Go call returns an error.  The two album-service calls made
inside the provisioning loops take the position of the submission in the list
as first argument, so that the service may answer each call differently. -/
structure Services where
  /-- Models `s.userRepo.GetByID`. -/
  userGetByID : GoString → Option User
  /-- Models `s.repo.ListLead(id, offset, limit)`: the slice (`none` is `nil`),
  the count, and whether `err != nil`. -/
  ListLead : GoString → Int → Int → Option (List CustomerLead) × Int × Bool
  /-- Models `s.bikipRepo.Get`. -/
  bikipGet : GoString → Option Bikip
  /-- Models `s.repo.GetByID`. -/
  GetByID : GoString → Option Customer
  /-- Models `s.apiRepo.GetBy("user_id", id)`: the `ID` of the key. -/
  apiKeyGetBy : GoString → Option GoString
  /-- The successive values of `uuid.New().String()`. -/
  uuidNew : Nat → GoString
  /-- Models `time.Now()`. -/
  now : Time
  /-- Models `s.createAlbum(apiKey, name, desc)`: the root album. -/
  createAlbum : GoString → GoString → GoString → Except GoString GoString
  /-- Models `utils.CreateAlbum(apiKey, name, desc, parent)`: a sub-album. -/
  CreateAlbum : Nat → GoString → GoString → GoString → GoString → Except GoString GoString
  /-- Models `s.editPhotoToAlbum(apiKey, photoIds, albumId, "", "", false)`. -/
  editPhotoToAlbum : Nat → GoString → List GoString → GoString → Except GoString GoString
  /-- Models `s.repo.Create`: `some e` is the error. -/
  Create : Customer → Option GoString
  /-- Models `s.repo.AddLead`: `some e` is the error. -/
  AddLead : List CustomerLead → Option GoString
  /-- The constant `constant.GroupQTV`. -/
  GroupQTV : Int
  /-- The table `unicode.ToLower`. -/
  toLowerRune : Nat → Nat

/-- An effectful call of a handler, as recorded in its trace; `ok` tells whether
the album service answered without error. -/
inductive Call
  | createAlbum (apiKey name desc : GoString) (ok : Bool)
  | CreateAlbum (apiKey name desc parent : GoString) (ok : Bool)
  | editPhotoToAlbum (apiKey : GoString) (photoIds : List GoString) (albumId : GoString)
      (ok : Bool)
  | Create (c : Customer)
  | AddLead (leads : List CustomerLead)
deriving DecidableEq, Repr

/-! ## Enrichment (`List`, lines 225-278) -/

/-- The body of the loop over `leads` (lines 243-253): the lead receives the
owner summary; a lead that names a product receives the product summary unless
the lookup fails (`continue`). -/
def enrichLead (sv : Services) (cusUser : User) (l : CustomerLead) : CustomerLead :=
  let l := { l with User := some cusUser }
  if l.BikipID.length > 0 then
    match sv.bikipGet l.BikipID with
    | none => l
    | some bikip => { l with Bikip := some { ID := bikip.ID, Title := bikip.Title } }
  else l

/-- The function handed to `ants.NewPoolWithFunc` (lines 226-261), run on one
customer: the customer as the function leaves it, and whether the function
reached `wg.Done()`.  The `return` of line 230 leaves without it. -/
def poolFunc (sv : Services) (cus : Customer) : Customer × Bool :=
  match sv.userGetByID cus.UserID with
  | none => (cus, false)
  | some u =>
    let cusUser : User :=
      { ID := u.ID, FullName := u.FullName, DeptName := u.DeptName, Phone := u.Phone }
    let cus := { cus with User := some cusUser }
    match sv.ListLead cus.ID 0 10 with
    | (some leads, count, false) =>
      ({ cus with Lead := some { Items := leads.map (enrichLead sv cusUser), Total := count } },
        true)
    | _ => (cus, true)

/-- The state of the fan-out: the customers handled so far, the counter of the
`sync.WaitGroup`, and the number of `wg.Done()` calls. -/
structure FanState where
  customers : List Customer
  wg : Int
  signals : Nat
deriving DecidableEq, Repr

/-- The dispatch loop (lines 264-267): `wg.Add(1)`, then `p.Invoke` on the
customer, whose worker decrements the counter if it reaches `wg.Done()`.  A
worker writes its own customer only and the lookups do not depend on the other
workers, so the customers and the counter at the end are those of running the
workers one after the other; a worker that returns hands its slot of the pool
back, so every customer is dispatched. -/
def dispatch (sv : Services) : List Customer → FanState → FanState
  | [], st => st
  | cus :: rest, st =>
    let wg := st.wg + 1
    let r := poolFunc sv cus
    dispatch sv rest
      { customers := st.customers ++ [r.1],
        wg := if r.2 then wg - 1 else wg,
        signals := if r.2 then st.signals + 1 else st.signals }

/-- The state in which `wg.Wait()` is called. -/
def fanOut (sv : Services) (customers : List Customer) : FanState :=
  dispatch sv customers { customers := [], wg := 0, signals := 0 }

/-- The enrichment step: `wg.Wait()` returns when the counter is zero, and then
the customers are those the workers left; with a positive counter and no
worker left to decrement it, the wait never returns (`none`). -/
def enrich (sv : Services) (customers : List Customer) : Option (List Customer) :=
  let st := fanOut sv customers
  if st.wg = 0 then some st.customers else none

/-- The tail of `List` from line 225 on: the response once the wait has
returned. -/
def ListTail (sv : Services) (customers : List Customer) (count : Int) : Option Response :=
  (enrich sv customers).map fun items =>
    { Status := 200, Code := 200, Message := "Success", Data := Payload.page items count }

/-! ## Lead provisioning (`Add`, lines 374-450, and `Lead`, lines 794-864) -/

/-- How a handler run ends: with a `c.JSON` response, in a run-time panic, or
with `return err`, the error being handed to the framework (`failed`). -/
inductive Reply
  | json (r : Response)
  | panicked
  | failed
deriving DecidableEq, Repr

/-- The end of a handler run and the effectful calls it made, in order. -/
structure Outcome where
  reply : Reply
  trace : List Call
deriving DecidableEq, Repr

/-- The variables a provisioning loop carries from one submission to the next:
the slice `leads`, the field `candidate.LeadAt`, and the calls made so far. -/
structure LoopState where
  leads : List CustomerLead
  LeadAt : Option Time
  trace : List Call
deriving DecidableEq, Repr

/-- One iteration, or a whole loop: the loop goes on from a state, or the
handler has ended. -/
inductive Step
  | next (st : LoopState)
  | stop (o : Outcome)
deriving DecidableEq, Repr

/-- The statement of lines 423-425 and 838-840: `LeadAt` is replaced when it is
`nil` or when its Unix second is below that of the registration time. -/
def updateLeadAt (cur : Option Time) (regAt : Time) : Option Time :=
  match cur with
  | none => some regAt
  | some t => if t.Unix < regAt.Unix then some regAt else some t

/-- The literal `"7"`, the customer category. -/
def category7 : GoString := [55]

/-- One iteration of the loop of `Add` (lines 376-426) for the submission `l` at
position `k`. -/
def addStep (sv : Services) (userInfo : Claims) (apiKey customerId album : GoString)
    (currentTime : Time) (k : Nat) (l : CustomerLeadParam) (st : LoopState) : Step :=
  match albumName sv.toLowerRune l.Bikip.Title with
  | none => Step.stop { reply := Reply.panicked, trace := st.trace }
  | some name =>
    match sv.CreateAlbum k apiKey name l.Bikip.Title album with
    | Except.error _ =>
      Step.next
        { st with trace := st.trace ++ [Call.CreateAlbum apiKey name l.Bikip.Title album false] }
    | Except.ok leadAlbumId =>
      let trace := st.trace ++ [Call.CreateAlbum apiKey name l.Bikip.Title album true]
      let imgIds := l.Images.map (fun img => img.GalleryID)
      let images := l.Images.map (fun img => { img with Album := leadAlbumId, Category := category7 })
      let lead : CustomerLead :=
        { ID := sv.uuidNew (k + 1), CID := customerId, UserID := userInfo.ID,
          BikipID := l.Bikip.ID, Comment := l.Comment, Images := images, RegAt := l.RegAt,
          CreatedAt := currentTime, UpdatedAt := currentTime }
      let done : LoopState → Step := fun s =>
        Step.next { leads := s.leads ++ [lead], LeadAt := updateLeadAt s.LeadAt l.RegAt,
                    trace := s.trace }
      if imgIds.length > 0 then
        match sv.editPhotoToAlbum k apiKey imgIds leadAlbumId with
        | Except.error e =>
          Step.stop
            { reply := Reply.json
                { Status := 400, Code := 422, Message := "lỗi upload ảnh: ", Arg := e },
              trace := trace ++ [Call.editPhotoToAlbum apiKey imgIds leadAlbumId false] }
        | Except.ok _ =>
          done { st with trace := trace ++ [Call.editPhotoToAlbum apiKey imgIds leadAlbumId true] }
      else done { st with trace := trace }

/-- The loop of `Add` over the submissions from position `k` on. -/
def addLoop (sv : Services) (userInfo : Claims) (apiKey customerId album : GoString)
    (currentTime : Time) : Nat → List CustomerLeadParam → LoopState → Step
  | _, [], st => Step.next st
  | k, l :: rest, st =>
    match addStep sv userInfo apiKey customerId album currentTime k l st with
    | Step.next st1 => addLoop sv userInfo apiKey customerId album currentTime (k + 1) rest st1
    | Step.stop o => Step.stop o

/-- Lines 374-450 of `Add`: the loop, then `s.repo.Create(candidate)` and, for a
non-empty `leads`, `s.repo.AddLead(leads)`. -/
def AddProvision (sv : Services) (userInfo : Claims) (apiKey customerId : GoString)
    (currentTime : Time) (candidate : Customer) (submissions : List CustomerLeadParam) :
    Outcome :=
  match addLoop sv userInfo apiKey customerId candidate.Album currentTime 0 submissions
      { leads := [], LeadAt := candidate.LeadAt, trace := [] } with
  | Step.stop o => o
  | Step.next st =>
    let candidate := { candidate with LeadAt := st.LeadAt }
    let trace := st.trace ++ [Call.Create candidate]
    match sv.Create candidate with
    | some _ =>
      { reply := Reply.json { Status := 400, Code := 400, Message := "Invalid params" },
        trace := trace }
    | none =>
      if st.leads.length > 0 then
        let trace := trace ++ [Call.AddLead st.leads]
        match sv.AddLead st.leads with
        | some _ =>
          { reply := Reply.json
              { Status := 400, Code := 400, Message := "Add customer lead error" },
            trace := trace }
        | none =>
          { reply := Reply.json { Status := 200, Code := 200, Message := "Success" },
            trace := trace }
      else
        { reply := Reply.json { Status := 200, Code := 200, Message := "Success" },
          trace := trace }

/-- The cutset `" ,."`. -/
def cutsetName : GoString := [32, 44, 46]

/-- The literal `"KH - "`. -/
def customerLabel : GoString := [75, 72, 32, 45, 32]

/-- The handler `Add` (lines 281-451); `bound` is the result of `s.bind`. -/
def Add (sv : Services) (userInfo : Claims) (bound : Except GoString CustomerParam) : Outcome :=
  match bound with
  | Except.error e =>
    { reply := Reply.json
        { Status := 400, Code := 400, Message := "Invalid params", Data := Payload.text e },
      trace := [] }
  | Except.ok param =>
    match sv.apiKeyGetBy userInfo.ID with
    | none =>
      { reply := Reply.json { Status := 400, Code := 422, Message := "get api key error" },
        trace := [] }
    | some apiKey =>
      let fullName := Trim param.FullName cutsetName
      let lastCMND := replaceSpaces false (Trim param.LastCMND cutsetName)
      let lastPhone := replaceSpaces false (Trim param.Phone cutsetName)
      let note := Trim param.Note [32]
      let customerId := sv.uuidNew 0
      match sv.GetByID customerId with
      | some _ =>
        { reply := Reply.json
            { Status := 400, Code := 400, Message := "Khách hàng đã tồn tại!" },
          trace := [] }
      | none =>
        let currentTime := sv.now.Round
        let candidate : Customer :=
          { ID := customerId, FullName := fullName, BirthYear := param.BirthYear,
            City := param.City, Address := param.Address, LastCMND := lastCMND,
            Phone := lastPhone, Budget := param.Budget, Note := note,
            Zone := userInfo.Zone, Province := userInfo.City, Districts := param.Districts,
            UserID := userInfo.ID, DeptID := userInfo.Dept,
            CreatedAt := currentTime, UpdatedAt := currentTime }
        let candidate :=
          if param.Province.length > 0 ∧ userInfo.Group ≤ sv.GroupQTV then
            { candidate with Province := param.Province }
          else candidate
        match sv.createAlbum apiKey (customerLabel ++ fullName) fullName with
        | Except.error e =>
          { reply := Reply.json { Status := 400, Code := 400, Message := "", Arg := e },
            trace := [Call.createAlbum apiKey (customerLabel ++ fullName) fullName false] }
        | Except.ok albumId =>
          let o := AddProvision sv userInfo apiKey customerId currentTime
            { candidate with Album := albumId } param.Leads
          { o with
            trace := Call.createAlbum apiKey (customerLabel ++ fullName) fullName true :: o.trace }

/-- One iteration of the loop of `Lead` (lines 796-841) for the submission `p`
at position `k`. -/
def leadStep (sv : Services) (userInfo : Claims) (apiKey id album : GoString)
    (currentTime : Time) (k : Nat) (p : CustomerLeadParam) (st : LoopState) : Step :=
  match sv.bikipGet p.BikipID with
  | none => Step.next st
  | some bikip =>
    match albumName sv.toLowerRune bikip.Title with
    | none => Step.stop { reply := Reply.panicked, trace := st.trace }
    | some name =>
      match sv.CreateAlbum k apiKey name bikip.Title album with
      | Except.error _ =>
        Step.next
          { st with trace := st.trace ++ [Call.CreateAlbum apiKey name bikip.Title album false] }
      | Except.ok albumId =>
        let images := p.Images.map (fun img => { img with Album := albumId })
        let lead : CustomerLead :=
          { ID := sv.uuidNew k, CID := id, BikipID := p.BikipID, UserID := userInfo.ID,
            RegAt := p.RegAt, Comment := p.Comment, CreatedAt := currentTime, Images := images }
        Step.next
          { leads := st.leads ++ [lead], LeadAt := updateLeadAt st.LeadAt lead.RegAt,
            trace := st.trace ++ [Call.CreateAlbum apiKey name bikip.Title album true] }

/-- The loop of `Lead` over the submissions from position `k` on. -/
def leadLoop (sv : Services) (userInfo : Claims) (apiKey id album : GoString)
    (currentTime : Time) : Nat → List CustomerLeadParam → LoopState → Step
  | _, [], st => Step.next st
  | k, p :: rest, st =>
    match leadStep sv userInfo apiKey id album currentTime k p st with
    | Step.next st1 => leadLoop sv userInfo apiKey id album currentTime (k + 1) rest st1
    | Step.stop o => Step.stop o

/-- Lines 794-864 of `Lead`: the loop, then `s.repo.Create(candidate)` and, for a
non-empty `leads`, `s.repo.AddLead(leads)`. -/
def LeadProvision (sv : Services) (userInfo : Claims) (apiKey id : GoString)
    (candidate : Customer) (params : List CustomerLeadParam) : Outcome :=
  match leadLoop sv userInfo apiKey id candidate.Album sv.now 0 params
      { leads := [], LeadAt := candidate.LeadAt, trace := [] } with
  | Step.stop o => o
  | Step.next st =>
    let candidate := { candidate with LeadAt := st.LeadAt }
    let trace := st.trace ++ [Call.Create candidate]
    match sv.Create candidate with
    | some _ =>
      { reply := Reply.json
          { Status := 400, Code := 400, Message := "Lỗi cập nhật thông tin ID: ", Arg := id },
        trace := trace }
    | none =>
      if st.leads.length > 0 then
        let trace := trace ++ [Call.AddLead st.leads]
        match sv.AddLead st.leads with
        | some e =>
          { reply := Reply.json
              { Status := 400, Code := 400, Message := "Add lead error", Data := Payload.text e },
            trace := trace }
        | none =>
          { reply := Reply.json { Status := 200, Code := 200, Message := "Success" },
            trace := trace }
      else
        { reply := Reply.json { Status := 200, Code := 200, Message := "Success" },
          trace := trace }

/-- The handler `Lead` (lines 751-865); `id` is the path parameter and `body`
the result of `BindBody` into `params`. -/
def Lead (sv : Services) (userInfo : Claims) (id : GoString)
    (body : Except GoString (List CustomerLeadParam)) : Outcome :=
  match sv.GetByID id with
  | none =>
    { reply := Reply.json
        { Status := 400, Code := 400, Message := "Không tìm thấy người dùng với ID: ", Arg := id },
      trace := [] }
  | some candidate =>
    if candidate.UserID ≠ userInfo.ID then
      { reply := Reply.json
          { Status := 403, Code := 403,
            Message := "permission denied: you are not the owner of customer" },
        trace := [] }
    else
      match body with
      | Except.error _ =>
        { reply := Reply.json { Status := 400, Code := 400, Message := "Invalid params" },
          trace := [] }
      | Except.ok params =>
        if params.length = 0 then
          { reply := Reply.json { Status := 400, Code := 400, Message := "Invalid params" },
            trace := [] }
        else
          match sv.apiKeyGetBy userInfo.ID with
          | none =>
            { reply := Reply.json
                { Status := 400, Code := 400, Message := "Invalid params",
                  Data := Payload.failure "get api key error" },
              trace := [] }
          | some apiKey => LeadProvision sv userInfo apiKey id candidate params

/-! ## `Update` (lines 655-749) -/

/-- The loop of `Update` over the submitted leads (lines 717-734): a lead that
carries an id is passed over; any other becomes a new lead, `n` being the number
of leads built before it. -/
def updateLeads (sv : Services) (userInfo : Claims) (customerID : GoString)
    (currentTime : Time) : Nat → List CustomerLeadParam → List CustomerLead
  | _, [] => []
  | n, l :: rest =>
    if l.ID.length ≠ 0 then updateLeads sv userInfo customerID currentTime n rest
    else
      { ID := sv.uuidNew n, CID := customerID, UserID := userInfo.ID, BikipID := l.BikipID,
        Comment := l.Comment, Images := l.Images, RegAt := l.RegAt, CreatedAt := currentTime }
        :: updateLeads sv userInfo customerID currentTime (n + 1) rest

/-- The handler `Update`; `id` is the path parameter and `bound` the result of
`s.bind`.  The customer is written back first, with the profile fields of the
request and `LeadAt` as it was read; the new leads are then handed to
`s.repo.AddLead`, whatever their number. -/
def Update (sv : Services) (userInfo : Claims) (id : GoString)
    (bound : Except GoString CustomerParam) : Outcome :=
  match bound with
  | Except.error _ =>
    { reply := Reply.json { Status := 400, Code := 400, Message := "Invalid params" },
      trace := [] }
  | Except.ok param =>
    match sv.GetByID id with
    | none => { reply := Reply.failed, trace := [] }
    | some existedCustomer =>
      if existedCustomer.UserID ≠ userInfo.ID then
        { reply := Reply.json
            { Status := 403, Code := 403,
              Message := "permission denied: you are not the owner of customer" },
          trace := [] }
      else
        let lastCMND := replaceSpaces false (Trim param.LastCMND cutsetName)
        let lastPhone := replaceSpaces false (Trim param.Phone cutsetName)
        let currentTime := sv.now.Round
        let existedCustomer :=
          { existedCustomer with
            BirthYear := param.BirthYear, City := param.City, LastCMND := lastCMND,
            Phone := lastPhone, Budget := param.Budget, Districts := param.Districts,
            UpdatedAt := currentTime }
        match sv.Create existedCustomer with
        | some _ =>
          { reply := Reply.json { Status := 422, Code := 422, Message := "Invalid params" },
            trace := [Call.Create existedCustomer] }
        | none =>
          let leads := updateLeads sv userInfo existedCustomer.ID currentTime 0 param.Leads
          match sv.AddLead leads with
          | some _ =>
            { reply := Reply.json
                { Status := 500, Code := 500, Message := "Cập nhật thông tin không thành công" },
              trace := [Call.Create existedCustomer, Call.AddLead leads] }
          | none =>
            { reply := Reply.json { Status := 200, Code := 200, Message := "Success" },
              trace := [Call.Create existedCustomer, Call.AddLead leads] }

/-! ## The persisted state of a customer -/

/-- Modelled from the spec: the record store behind `s.repo` is not part of the
file.  Of the customer a handler works on, the store holds `leadAt` and the
leads, of which only the registration times matter here. -/
structure Persisted where
  LeadAt : Option Time
  regAts : List Time
deriving DecidableEq, Repr

/-- Modelled from the spec: the effect on the store of one call of a trace.  A
`s.repo.Create` that succeeds writes the customer, hence its `LeadAt`; a
`s.repo.AddLead` that succeeds adds its leads; a call that fails, and a call to
the album service, leave the store as it is. -/
def persistCall (sv : Services) (p : Persisted) : Call → Persisted
  | Call.Create c => if sv.Create c = none then { p with LeadAt := c.LeadAt } else p
  | Call.AddLead ls =>
    if sv.AddLead ls = none then { p with regAts := p.regAts ++ ls.map (fun l => l.RegAt) }
    else p
  | _ => p

/-- The store after the calls of a trace, in order. -/
def persisted (sv : Services) (p : Persisted) (trace : List Call) : Persisted :=
  trace.foldl (persistCall sv) p

/-- No persisted lead is registered in a later Unix second than `leadAt`. -/
def withinLeadAt (p : Persisted) : Prop :=
  ∀ t ∈ p.regAts, ∃ x, p.LeadAt = some x ∧ t.Unix ≤ x.Unix

/-- The photo attachment calls of a trace: the gallery ids and the album of
each, in order. -/
def attachCalls : List Call → List (List GoString × GoString)
  | [] => []
  | Call.editPhotoToAlbum _ ids a _ :: rest => (ids, a) :: attachCalls rest
  | _ :: rest => attachCalls rest

/-- The attachment calls expected of the submissions from position `k` on: one
for each submission that carries an image and whose sub-album was created, with
the gallery ids of its images, in order, and that sub-album. -/
def expectedAttach (created : Nat → CustomerLeadParam → Option GoString) :
    Nat → List CustomerLeadParam → List (List GoString × GoString)
  | _, [] => []
  | k, l :: rest =>
    match created k l with
    | some a =>
      if l.Images.length > 0 then
        (l.Images.map (fun img => img.GalleryID), a) :: expectedAttach created (k + 1) rest
      else expectedAttach created (k + 1) rest
    | none => expectedAttach created (k + 1) rest

/-! ## Reading the traces, and the leads a call is expected to persist -/

/-- The arguments of the `s.repo.AddLead` calls of a trace. -/
def addLeadCalls : List Call → List (List CustomerLead)
  | [] => []
  | Call.AddLead ls :: rest => ls :: addLeadCalls rest
  | _ :: rest => addLeadCalls rest

/-- The customers handed to `s.repo.Create` in a trace. -/
def createCalls : List Call → List Customer
  | [] => []
  | Call.Create c :: rest => c :: createCalls rest
  | _ :: rest => createCalls rest

/-- A call to the album service from inside a provisioning loop: sub-album
creation or photo attachment. -/
def isAlbumCall : Call → Bool
  | Call.CreateAlbum _ _ _ _ _ => true
  | Call.editPhotoToAlbum _ _ _ _ => true
  | _ => false

/-- A photo attachment call that failed. -/
def isFailedAttach : Call → Bool
  | Call.editPhotoToAlbum _ _ _ false => true
  | _ => false

/-- In `Add`: the sub-album created for the submission `l` at position `k`, if
its creation succeeded. -/
def addCreated (sv : Services) (apiKey album : GoString) (k : Nat) (l : CustomerLeadParam) :
    Option GoString :=
  match albumName sv.toLowerRune l.Bikip.Title with
  | none => none
  | some name =>
    match sv.CreateAlbum k apiKey name l.Bikip.Title album with
    | Except.ok a => some a
    | Except.error _ => none

/-- In `Lead`: the sub-album created for the submission `p` at position `k`, if
its product resolved and the creation succeeded. -/
def leadCreated (sv : Services) (apiKey album : GoString) (k : Nat) (p : CustomerLeadParam) :
    Option GoString :=
  match sv.bikipGet p.BikipID with
  | none => none
  | some bikip =>
    match albumName sv.toLowerRune bikip.Title with
    | none => none
    | some name =>
      match sv.CreateAlbum k apiKey name bikip.Title album with
      | Except.ok a => some a
      | Except.error _ => none

/-- The submissions, from position `k` on, whose sub-album was created, in
submission order. -/
def succeeded (created : Nat → CustomerLeadParam → Option GoString) :
    Nat → List CustomerLeadParam → List CustomerLeadParam
  | _, [] => []
  | k, l :: rest =>
    if (created k l).isSome then l :: succeeded created (k + 1) rest
    else succeeded created (k + 1) rest

/-- The lead `Add` builds for the submission `l` at position `k`, once its
sub-album `a` exists. -/
def addLeadRecord (sv : Services) (userInfo : Claims) (customerId : GoString)
    (currentTime : Time) (k : Nat) (l : CustomerLeadParam) (a : GoString) : CustomerLead :=
  { ID := sv.uuidNew (k + 1), CID := customerId, UserID := userInfo.ID,
    BikipID := l.Bikip.ID, Comment := l.Comment,
    Images := l.Images.map (fun img => { img with Album := a, Category := category7 }),
    RegAt := l.RegAt, CreatedAt := currentTime, UpdatedAt := currentTime }

/-- The lead `Lead` builds for the submission `p` at position `k`, once its
sub-album `a` exists. -/
def leadLeadRecord (sv : Services) (userInfo : Claims) (id : GoString)
    (currentTime : Time) (k : Nat) (p : CustomerLeadParam) (a : GoString) : CustomerLead :=
  { ID := sv.uuidNew k, CID := id, BikipID := p.BikipID, UserID := userInfo.ID,
    RegAt := p.RegAt, Comment := p.Comment, CreatedAt := currentTime,
    Images := p.Images.map (fun img => { img with Album := a }) }

/-- One lead per submission whose sub-album was created, from position `k` on, in
submission order; `record` builds the lead of a flow. -/
def expectedLeads (created : Nat → CustomerLeadParam → Option GoString)
    (record : Nat → CustomerLeadParam → GoString → CustomerLead) :
    Nat → List CustomerLeadParam → List CustomerLead
  | _, [] => []
  | k, l :: rest =>
    match created k l with
    | some a => record k l a :: expectedLeads created record (k + 1) rest
    | none => expectedLeads created record (k + 1) rest

/-- The value of `LeadAt` after the registration times `ts` have been offered to
it one after the other. -/
def leadAtAfter (init : Option Time) (ts : List Time) : Option Time :=
  ts.foldl updateLeadAt init

/-- The value `r` is the latest of `init` and `ts` as far as whole seconds go:
it is `init` when `ts` is empty, it is `init` or a member of `ts`, it is set when
`ts` is not empty, and no member of `ts` nor `init` has a later Unix second. -/
def isLatestBySecond (init : Option Time) (ts : List Time) (r : Option Time) : Prop :=
  (ts = [] → r = init)
  ∧ (r = init ∨ ∃ t ∈ ts, r = some t)
  ∧ (ts ≠ [] → r ≠ none)
  ∧ ∀ x, r = some x →
      (∀ t ∈ ts, t.Unix ≤ x.Unix) ∧ (∀ t0, init = some t0 → t0.Unix ≤ x.Unix)

/-- The value `r` is the first, in the order `init` and then `ts` from left to
right, of the values whose Unix second is the greatest: either it is `init` and no
member of `ts` has a later Unix second than `init`, or it is a member of `ts` with
a later Unix second than `init` and than every member before it, and no member
after it has a later Unix second.  Of several values within the greatest second
the one processed first is kept, whatever their nanoseconds. -/
def keepsFirstOfLatestSecond (init : Option Time) (ts : List Time) (r : Option Time) : Prop :=
  (r = init ∧ ∀ t ∈ ts, ∃ x0, init = some x0 ∧ t.Unix ≤ x0.Unix)
  ∨ ∃ pre x post, ts = pre ++ x :: post ∧ r = some x
      ∧ (∀ x0, init = some x0 → x0.Unix < x.Unix)
      ∧ (∀ t ∈ pre, t.Unix < x.Unix)
      ∧ (∀ t ∈ post, t.Unix ≤ x.Unix)

/-- The order of `time.Time` values: `t.After(u)`. -/
def Time.After (t u : Time) : Bool :=
  decide (u.sec < t.sec) || (decide (u.sec = t.sec) && decide (u.nsec < t.nsec))

/-! ## Sample data -/

/-- The owner summary built at lines 232-237 from a resolved user. -/
def ownerSummary (u : User) : User :=
  { ID := u.ID, FullName := u.FullName, DeptName := u.DeptName, Phone := u.Phone }

/-- A lead as stored, with the product it names. -/
def sampleLead (id bikipID : GoString) : CustomerLead :=
  { ID := id, CID := [99, 50], UserID := [50], BikipID := bikipID, Comment := [],
    Images := [], RegAt := { sec := 100, nsec := 0 }, CreatedAt := { sec := 100, nsec := 0 } }

/-- Sample collaborators.  The user `"1"` cannot be looked up, every other user
can; customer `"c2"` has three stored leads, the second naming a product that
cannot be looked up; the album service refuses the sub-album of the submission
at position 1; everything else succeeds. -/
def sampleServices : Services where
  userGetByID := fun id =>
    if id = [49] then none
    else some { ID := id, FullName := [85], DeptName := [68], Phone := [48], Extra := [120] }
  ListLead := fun id _ _ =>
    if id = [99, 50] then
      (some [sampleLead [108, 49] [98, 49], sampleLead [108, 50] [98, 63],
        sampleLead [108, 51] [98, 51]], 3, false)
    else (none, 0, false)
  bikipGet := fun id =>
    if id = [98, 63] then none else some { ID := id, Title := [84] ++ id, Extra := [120] }
  GetByID := fun id =>
    if id = [99, 50] then some { ID := [99, 50], UserID := [50], Album := [114] } else none
  apiKeyGetBy := fun _ => some [107]
  uuidNew := fun n => [117, 48 + n]
  now := { sec := 1000, nsec := 0 }
  createAlbum := fun _ _ _ => Except.ok [114]
  CreateAlbum := fun k _ _ _ _ => if k = 1 then Except.error [101] else Except.ok [97, 48 + k]
  editPhotoToAlbum := fun _ _ _ albumId => Except.ok albumId
  Create := fun _ => none
  AddLead := fun _ => none
  GroupQTV := 1
  toLowerRune := toLowerLatinVN

/-- A title of 50 letters `ê` (two bytes each): 50 characters, 100 bytes. -/
def titleFiftyLetters : GoString := (List.replicate 50 [0xC3, 0xAA]).flatten

/-- A title of 120 letters `a`. -/
def titleLongAscii : GoString := List.replicate 120 97

/-- A submission naming the product `bikip`, registered at `t`, with `images`. -/
def sampleSubmission (bikip : GoString) (t : Time) (images : List Image) : CustomerLeadParam :=
  { BikipID := bikip, Bikip := { ID := bikip, Title := [84] ++ bikip }, Comment := [99],
    Images := images, RegAt := t }

/-- An uploaded image not yet assigned to an album. -/
def sampleImage : Image := { GalleryID := [103], Album := [], Category := [] }

/-- Three submissions.  With the sample collaborators the sub-album of the second
is refused; the first and the third are registered within the same second. -/
def sampleSubmissions : List CustomerLeadParam :=
  [sampleSubmission [98, 49] { sec := 10, nsec := 100 } [sampleImage],
   sampleSubmission [98, 50] { sec := 30, nsec := 0 } [],
   sampleSubmission [98, 51] { sec := 10, nsec := 900 } []]

/-- The sample collaborators with an album service that creates every sub-album
and refuses the photos of the submission at position 1. -/
def attachFailServices : Services :=
  { sampleServices with
    CreateAlbum := fun k _ _ _ _ => Except.ok [97, 48 + k]
    editPhotoToAlbum := fun k _ _ albumId =>
      if k = 1 then Except.error [101] else Except.ok albumId }

/-- Three submissions, the first two with a photo. -/
def photoSubmissions : List CustomerLeadParam :=
  [sampleSubmission [98, 49] { sec := 10, nsec := 0 } [sampleImage],
   sampleSubmission [98, 50] { sec := 30, nsec := 0 } [sampleImage],
   sampleSubmission [98, 51] { sec := 20, nsec := 0 } []]

/-- The customer `"c2"` of the sample data. -/
def sampleCandidate : Customer := { ID := [99, 50], UserID := [50], Album := [114] }

/-- The signed-in user `"2"`. -/
def sampleClaims : Claims := { ID := [50] }

/-- The sample collaborators with a store in which customer `"c2"` has `leadAt`
at second 5. -/
def storedServices : Services :=
  { sampleServices with
    GetByID := fun id =>
      if id = [99, 50] then some { sampleCandidate with LeadAt := some { sec := 5, nsec := 0 } }
      else none }

/-- The store of customer `"c2"` before a request: `leadAt` at second 5, and one
lead registered then. -/
def storedBefore : Persisted :=
  { LeadAt := some { sec := 5, nsec := 0 }, regAts := [{ sec := 5, nsec := 0 }] }

/-- A customer owned by user `uid`. -/
def sampleCustomer (id uid : GoString) : Customer := { ID := id, UserID := uid }

/-- A page of three customers; the owner of the second cannot be looked up. -/
def samplePageThree : List Customer :=
  [sampleCustomer [99, 50] [50], sampleCustomer [99, 52] [49], sampleCustomer [99, 51] [51]]

/-- The sample collaborators with a user repository in which every user,
`"1"` included, can be looked up. -/
def resolvingServices : Services :=
  { sampleServices with
    userGetByID := fun id =>
      some { ID := id, FullName := [85], DeptName := [68], Phone := [48], Extra := [120] } }

/-- A page of seven customers; the owner of the fourth cannot be looked up. -/
def samplePage : List Customer :=
  [sampleCustomer [99, 48] [50], sampleCustomer [99, 50] [50], sampleCustomer [99, 51] [51],
   sampleCustomer [99, 52] [49], sampleCustomer [99, 53] [50], sampleCustomer [99, 54] [52],
   sampleCustomer [99, 55] [50]]

/-! ## Enrichment: lemmas -/

theorem poolFunc_done (sv : Services) (c : Customer) :
    (poolFunc sv c).2 = (sv.userGetByID c.UserID).isSome := by
  unfold poolFunc
  cases h : sv.userGetByID c.UserID with
  | none => rfl
  | some u =>
    simp only [Option.isSome_some]
    split <;> rfl

theorem poolFunc_of_lookup_failed (sv : Services) (c : Customer)
    (h : sv.userGetByID c.UserID = none) : poolFunc sv c = (c, false) := by
  unfold poolFunc
  rw [h]

theorem poolFunc_frame (sv : Services) (c : Customer) :
    (poolFunc sv c).1 = { c with User := (poolFunc sv c).1.User, Lead := (poolFunc sv c).1.Lead } := by
  unfold poolFunc
  cases h : sv.userGetByID c.UserID with
  | none => rfl
  | some u =>
    simp only
    split <;> rfl

/-- The result of a worker depends on its customer and on the lookups made for
that customer only. -/
theorem poolFunc_congr (sv sv2 : Services) (c : Customer)
    (hu : sv2.userGetByID c.UserID = sv.userGetByID c.UserID)
    (hl : sv2.ListLead c.ID 0 10 = sv.ListLead c.ID 0 10)
    (hb : sv2.bikipGet = sv.bikipGet) : poolFunc sv2 c = poolFunc sv c := by
  have he : ∀ s : User, enrichLead sv2 s = enrichLead sv s := by
    intro s
    funext l
    unfold enrichLead
    rw [hb]
  unfold poolFunc
  rw [hu]
  simp only [hl, he]

theorem dispatch_customers (sv : Services) (cs : List Customer) (st : FanState) :
    (dispatch sv cs st).customers = st.customers ++ cs.map (fun c => (poolFunc sv c).1) := by
  induction cs generalizing st with
  | nil => simp [dispatch]
  | cons c rest ih => simp [dispatch, ih]

theorem dispatch_signals (sv : Services) (cs : List Customer) (st : FanState) :
    (dispatch sv cs st).signals
      = st.signals + (cs.filter (fun c => (poolFunc sv c).2)).length := by
  induction cs generalizing st with
  | nil => simp [dispatch]
  | cons c rest ih =>
    simp only [dispatch, ih, List.filter_cons]
    cases (poolFunc sv c).2 <;> simp; omega

theorem dispatch_wg (sv : Services) (cs : List Customer) (st : FanState) :
    (dispatch sv cs st).wg
      = st.wg + ((cs.filter (fun c => !(poolFunc sv c).2)).length : Int) := by
  induction cs generalizing st with
  | nil => simp [dispatch]
  | cons c rest ih =>
    simp only [dispatch, ih, List.filter_cons]
    cases (poolFunc sv c).2 <;> simp; omega

theorem fanOut_customers (sv : Services) (cs : List Customer) :
    (fanOut sv cs).customers = cs.map (fun c => (poolFunc sv c).1) := by
  simp [fanOut, dispatch_customers]

/-- The wait returns exactly when every owner lookup of the page succeeds. -/
theorem enrich_isSome_iff (sv : Services) (cs : List Customer) :
    (enrich sv cs).isSome ↔ ∀ c ∈ cs, (sv.userGetByID c.UserID).isSome := by
  unfold enrich fanOut
  simp only [dispatch_wg]
  constructor
  · intro h c hc
    by_contra hne
    have hmem : c ∈ cs.filter (fun c => !(poolFunc sv c).2) := by
      simp [List.mem_filter, hc, poolFunc_done]
      simpa using hne
    have hpos : 0 < (cs.filter (fun c => !(poolFunc sv c).2)).length :=
      List.length_pos_of_mem hmem
    have hz : ¬ ((0 : Int) + ((cs.filter (fun c => !(poolFunc sv c).2)).length : Int) = 0) := by
      omega
    rw [if_neg hz] at h
    simp at h
  · intro h
    have hnil : cs.filter (fun c => !(poolFunc sv c).2) = [] := by
      rw [List.filter_eq_nil_iff]
      intro c hc
      simp [poolFunc_done, h c hc]
    simp [hnil]

/-- The customers the workers leave are as many as the page holds, in the order
of the page, each differing from its input in `User` and `Lead` at most. -/
theorem fanOut_frame (sv : Services) (cs : List Customer) :
    (fanOut sv cs).customers.length = cs.length
    ∧ ∀ (i : Nat) (c : Customer), cs[i]? = some c →
        ∃ d : Customer, (fanOut sv cs).customers[i]? = some d
          ∧ d = { c with User := d.User, Lead := d.Lead } := by
  rw [fanOut_customers]
  refine ⟨by simp, ?_⟩
  intro i c hc
  refine ⟨(poolFunc sv c).1, ?_, poolFunc_frame sv c⟩
  simp [List.getElem?_map, hc]

/-- When every owner lookup of the page succeeds the wait returns, with the
customers the workers left. -/
theorem enrich_of_lookups_ok (sv : Services) (cs : List Customer)
    (h : ∀ c ∈ cs, (sv.userGetByID c.UserID).isSome) :
    enrich sv cs = some (cs.map (fun c => (poolFunc sv c).1)) := by
  have hs := (enrich_isSome_iff sv cs).2 h
  unfold enrich at hs ⊢
  simp only [fanOut_customers] at hs ⊢
  split
  · rfl
  · rename_i hne
    simp [hne] at hs

/-! ## Enrichment: the claims -/

/-- C1 (defect of the code).  A page of one customer whose owner cannot be
looked up: the worker leaves by the `return` of line 230, `wg.Done()` is never
called, so the page has one dispatched record and no completion signal, the
counter of the wait group stays at 1, and `wg.Wait()`, hence `List`, never
returns. -/
theorem enrich_blocks_when_owner_lookup_fails :
    sampleServices.userGetByID (sampleCustomer [99, 52] [49]).UserID = none
    ∧ poolFunc sampleServices (sampleCustomer [99, 52] [49])
        = (sampleCustomer [99, 52] [49], false)
    ∧ (fanOut sampleServices [sampleCustomer [99, 52] [49]]).signals = 0
    ∧ (fanOut sampleServices [sampleCustomer [99, 52] [49]]).wg = 1
    ∧ enrich sampleServices [sampleCustomer [99, 52] [49]] = none
    ∧ ListTail sampleServices [sampleCustomer [99, 52] [49]] 1 = none := by
  decide

/-- The customers in memory once the workers have run, in a page where the
owner lookup of the record at position `i` fails: that record is as it was, so
that an owner summary and a lead page that were empty stay empty; and every
record of the page with another owner is exactly as it would be had that lookup
given any other outcome `r`, namely as its own worker leaves it.  The wait that
follows does not return in such a page. -/
theorem enrich_failed_owner_isolated (sv : Services) (cs : List Customer) (i : Nat)
    (c : Customer) (hc : cs[i]? = some c) (hfail : sv.userGetByID c.UserID = none)
    (r : Option User) :
    (fanOut sv cs).customers[i]? = some c
    ∧ (c.User = none → c.Lead = none →
        ∃ d : Customer, (fanOut sv cs).customers[i]? = some d ∧ d.User = none ∧ d.Lead = none)
    ∧ ∀ (j : Nat) (d : Customer), cs[j]? = some d → d.UserID ≠ c.UserID →
        (fanOut sv cs).customers[j]? = some (poolFunc sv d).1
        ∧ (fanOut sv cs).customers[j]?
            = (fanOut { sv with
                  userGetByID := fun id => if id = c.UserID then r else sv.userGetByID id }
                cs).customers[j]? := by
  have hi : (fanOut sv cs).customers[i]? = some c := by
    simp [fanOut_customers, List.getElem?_map, hc, poolFunc_of_lookup_failed sv c hfail]
  refine ⟨hi, fun hu hl => ⟨c, hi, hu, hl⟩, ?_⟩
  intro j d hd hne
  have hsame : poolFunc { sv with
        userGetByID := fun id => if id = c.UserID then r else sv.userGetByID id } d
      = poolFunc sv d := by
    apply poolFunc_congr
    · simp [hne]
    · rfl
    · rfl
  simp [fanOut_customers, List.getElem?_map, hd, hsame]

/-- The lemma above on the sample page, where the owner of the fourth customer
cannot be looked up. -/
theorem enrich_failed_owner_isolated_witness :
    samplePage[3]? = some (sampleCustomer [99, 52] [49])
    ∧ sampleServices.userGetByID (sampleCustomer [99, 52] [49]).UserID = none
    ∧ (fanOut sampleServices samplePage).customers[3]? = some (sampleCustomer [99, 52] [49]) :=
  ⟨by decide, by decide,
    (enrich_failed_owner_isolated sampleServices samplePage 3 (sampleCustomer [99, 52] [49])
      (by decide) (by decide) none).1⟩

/-- C2 (defect of the code, the one of C1).  A page of three customers, the
owner lookup of the second failing.  Had that lookup not failed, the enrichment
would return the three customers, each with its owner summary, the first with
its lead page.  With the lookup failing, the workers leave the second customer
without owner summary and lead page and the other two as before, in memory; but
the worker of the second customer never calls `wg.Done()`, the wait does not
return, and the enrichment hands back no customer at all: the derived fields of
the other records never reach the caller. -/
theorem enrich_failed_owner_withholds_siblings :
    samplePageThree[1]? = some (sampleCustomer [99, 52] [49])
    ∧ sampleServices.userGetByID (sampleCustomer [99, 52] [49]).UserID = none
    ∧ (enrich resolvingServices samplePageThree).map
          (fun out => out.map (fun c => (c.User.isSome, c.Lead.isSome)))
        = some [(true, true), (true, false), (true, false)]
    ∧ (fanOut sampleServices samplePageThree).customers.map
          (fun c => (c.User.isSome, c.Lead.isSome))
        = [(true, true), (false, false), (true, false)]
    ∧ (fanOut sampleServices samplePageThree).wg = 1
    ∧ enrich sampleServices samplePageThree = none
    ∧ ListTail sampleServices samplePageThree 3 = none := by
  decide

/-- C3.  For a customer whose owner resolves to `u` and whose first lead page
(offset 0, limit 10) loads as `leads` with count `total`: the customer gets the
owner summary and a lead page of the same length and count; the lead at each
position keeps every stored field, gets the owner summary, and gets the product
summary (id and title of the product found) when it names a product that
resolves; when the product lookup fails, or no product is named, its product
summary is left as stored, hence empty if it was empty.  This holds at every
position, whatever happens to the other leads. -/
theorem poolFunc_lead_page (sv : Services) (c : Customer) (u : User)
    (leads : List CustomerLead) (total : Int)
    (hu : sv.userGetByID c.UserID = some u)
    (hl : sv.ListLead c.ID 0 10 = (some leads, total, false)) :
    (poolFunc sv c).1.User = some (ownerSummary u)
    ∧ ∃ items : List CustomerLead,
        (poolFunc sv c).1.Lead = some { Items := items, Total := total }
        ∧ items.length = leads.length
        ∧ ∀ (k : Nat) (l : CustomerLead), leads[k]? = some l →
            ∃ m : CustomerLead, items[k]? = some m
              ∧ m = { l with User := some (ownerSummary u), Bikip := m.Bikip }
              ∧ (sv.bikipGet l.BikipID = none → m.Bikip = l.Bikip ∧ (l.Bikip = none → m.Bikip = none))
              ∧ (l.BikipID = [] → m.Bikip = l.Bikip)
              ∧ (∀ b, l.BikipID ≠ [] → sv.bikipGet l.BikipID = some b →
                  m.Bikip = some ({ ID := b.ID, Title := b.Title } : Bikip)) := by
  have hp : poolFunc sv c
      = ({ c with User := some (ownerSummary u),
                  Lead := some { Items := leads.map (enrichLead sv (ownerSummary u)),
                                 Total := total } }, true) := by
    simp [poolFunc, hu, hl, ownerSummary]
  rw [hp]
  refine ⟨rfl, leads.map (enrichLead sv (ownerSummary u)), rfl, by simp, ?_⟩
  intro k l hk
  refine ⟨enrichLead sv (ownerSummary u) l, by simp [List.getElem?_map, hk], ?_, ?_, ?_, ?_⟩
  · unfold enrichLead
    simp only
    split
    · split <;> rfl
    · rfl
  · intro hb
    have : (enrichLead sv (ownerSummary u) l).Bikip = l.Bikip := by
      unfold enrichLead
      simp only
      split
      · rw [hb]
      · rfl
    exact ⟨this, fun h => by rw [this, h]⟩
  · intro he
    unfold enrichLead
    simp [he]
  · intro b hne hb
    have hpos : l.BikipID.length > 0 := List.length_pos.mpr hne
    unfold enrichLead
    simp only [hpos, if_true, hb]

/-- Witness for C3: customer `"c2"` of the sample data, whose second of three
leads names a product that cannot be looked up. -/
theorem poolFunc_lead_page_witness :
    (poolFunc sampleServices (sampleCustomer [99, 50] [50])).1.User
      = some { ID := [50], FullName := [85], DeptName := [68], Phone := [48] } :=
  (poolFunc_lead_page sampleServices (sampleCustomer [99, 50] [50])
    { ID := [50], FullName := [85], DeptName := [68], Phone := [48], Extra := [120] }
    [sampleLead [108, 49] [98, 49], sampleLead [108, 50] [98, 63], sampleLead [108, 51] [98, 51]]
    3 (by decide) (by decide)).1

/-- C4 (defect of the code, the one of C1).  The sample page has seven customers,
one more than the six workers, and the owner of the fourth cannot be looked up:
six workers signal completion, the counter of the wait group stays at 1, and the
enrichment returns no records at all, although the workers left seven customers
in the order of the page. -/
theorem enrich_sample_page_never_returns :
    samplePage.length = 7
    ∧ (fanOut sampleServices samplePage).signals = 6
    ∧ (fanOut sampleServices samplePage).wg = 1
    ∧ enrich sampleServices samplePage = none
    ∧ (fanOut sampleServices samplePage).customers.map (fun c => c.ID)
        = samplePage.map (fun c => c.ID) := by
  decide

/-! ## Album name: lemmas -/

theorem indexFrom_of_absent (sub : GoString) (s : GoString) (n : Nat)
    (hno : ∀ j, startsWith (s.drop j) sub = false) : indexFrom sub s n = -1 := by
  induction s generalizing n with
  | nil =>
    have h0 := hno 0
    simp only [List.drop_nil] at h0
    simp [indexFrom, h0]
  | cons c rest ih =>
    have h0 := hno 0
    simp only [List.drop_zero] at h0
    have hrec := ih (n + 1) (fun j => by simpa using hno (j + 1))
    simp only [indexFrom, h0, Bool.false_eq_true, if_false, hrec]

/-- A string without the byte `t` contains the marker nowhere. -/
theorem startsWith_marker_of_no_t (s : GoString) (h : 0x74 ∉ s) (j : Nat) :
    startsWith (s.drop j) marker = false := by
  cases hd : s.drop j with
  | nil => rfl
  | cons c rest =>
    have hc : c ∈ s := List.mem_of_mem_drop (by rw [hd]; exact List.mem_cons_self c rest)
    have hne : c ≠ 0x74 := fun e => h (e ▸ hc)
    simp [startsWith, marker, hne]

theorem rangeRunes_ascii (s : GoString) (fuel : Nat) (hf : s.length ≤ fuel)
    (ha : ∀ b ∈ s, b < 128) : rangeRunes fuel s = s := by
  induction s generalizing fuel with
  | nil => cases fuel <;> rfl
  | cons b rest ih =>
    cases fuel with
    | zero => simp at hf
    | succ f =>
      have hb : b < 128 := ha b (List.mem_cons_self b rest)
      have hd : DecodeRuneInString (b :: rest) = (b, 1) := by
        simp [DecodeRuneInString, hb]
      simp only [rangeRunes, hd, List.drop_succ_cons, List.drop_zero]
      rw [ih f (by simpa using hf) (fun x hx => ha x (List.mem_cons_of_mem b hx))]

/-! ## Album name: the claims -/

/-- Counterexample to C6 as stated.  The title of 50 letters `ê` has 50
characters, no marker, and 100 bytes; the derived album name keeps 90 bytes of
it, that is 45 letters, and not the whole title. -/
theorem albumName_cuts_50_characters :
    (decodeRunes titleFiftyLetters).length = 50
    ∧ Index (ToLower toLowerLatinVN titleFiftyLetters) marker = -1
    ∧ albumName toLowerLatinVN titleFiftyLetters = some (leadLabel ++ titleFiftyLetters.take 90)
    ∧ (decodeRunes (titleFiftyLetters.take 90)).length = 45
    ∧ albumName toLowerLatinVN titleFiftyLetters ≠ some (leadLabel ++ titleFiftyLetters) := by
  decide

/-- C6 as amended.  For a title whose lowered form contains the marker nowhere,
the derived album name is the label `"LEAD - "` followed by the first 90 bytes of
the title when the title is longer than 90 bytes, and by the whole title when it
has at most 90 bytes.  In a title of ASCII characters bytes and characters are
the same, so that 120 such characters give 90 and 40 are unchanged. -/
theorem albumName_of_no_marker (tl : Nat → Nat) (title : GoString)
    (hno : ∀ j, startsWith ((ToLower tl title).drop j) marker = false) :
    (title.length > 90 →
        albumName tl title = some (leadLabel ++ title.take 90) ∧ (title.take 90).length = 90)
    ∧ (title.length ≤ 90 → albumName tl title = some (leadLabel ++ title))
    ∧ ((∀ b ∈ title, b < 128) → (decodeRunes title).length = title.length) := by
  have hidx : Index (ToLower tl title) marker = -1 := by
    unfold Index
    exact indexFrom_of_absent marker (ToLower tl title) 0 hno
  have hmain : albumName tl title
      = some (leadLabel ++ (if title.length > 90 then title.take 90 else title)) := by
    unfold albumName
    simp [hidx]
  refine ⟨fun h => ⟨by rw [hmain, if_pos h], ?_⟩, fun h => ?_, fun ha => ?_⟩
  · rw [List.length_take]
    omega
  · rw [hmain, if_neg (by omega)]
  · unfold decodeRunes
    rw [rangeRunes_ascii title title.length (Nat.le_refl _) ha]

/-- Witness for C6 as amended: 120 letters `a` give the label and 90 letters
`a`. -/
theorem albumName_of_no_marker_witness :
    albumName toLowerLatinVN titleLongAscii = some (leadLabel ++ List.replicate 90 97) :=
  ((albumName_of_no_marker toLowerLatinVN titleLongAscii
      (startsWith_marker_of_no_t _ (by decide))).1 (by decide)).1.trans (by decide)

/-! ## Provisioning: lemmas -/

theorem addStep_next (sv : Services) (userInfo : Claims) (apiKey customerId album : GoString)
    (currentTime : Time) (k : Nat) (l : CustomerLeadParam) (st st1 : LoopState)
    (h : addStep sv userInfo apiKey customerId album currentTime k l st = Step.next st1) :
    st1.leads = st.leads ++ expectedLeads (addCreated sv apiKey album)
        (addLeadRecord sv userInfo customerId currentTime) k [l]
    ∧ st1.LeadAt = leadAtAfter st.LeadAt
        ((succeeded (addCreated sv apiKey album) k [l]).map (fun s => s.RegAt))
    ∧ ∃ T, st1.trace = st.trace ++ T
        ∧ ∀ c ∈ T, isAlbumCall c = true ∧ isFailedAttach c = false := by
  cases hn : albumName sv.toLowerRune l.Bikip.Title with
  | none => simp [addStep, hn] at h
  | some name =>
    cases hc : sv.CreateAlbum k apiKey name l.Bikip.Title album with
    | error e =>
      simp only [addStep, hn, hc] at h
      injection h with h
      subst h
      simp [expectedLeads, succeeded, addCreated, leadAtAfter, hn, hc, isAlbumCall,
        isFailedAttach]
    | ok a =>
      by_cases hi : 0 < l.Images.length
      · cases he : sv.editPhotoToAlbum k apiKey (l.Images.map (fun img => img.GalleryID)) a with
        | error e => simp [addStep, hn, hc, hi, he] at h
        | ok r =>
          simp [addStep, hn, hc, hi, he] at h
          subst h
          simp [expectedLeads, succeeded, addCreated, leadAtAfter, hn, hc, isAlbumCall,
            isFailedAttach, addLeadRecord]
      · simp [addStep, hn, hc, hi] at h
        subst h
        simp [expectedLeads, succeeded, addCreated, leadAtAfter, hn, hc, isAlbumCall,
          isFailedAttach, addLeadRecord]

/-- The response of `Add` to a failed photo attachment (lines 415-418). -/
theorem addStep_stop (sv : Services) (userInfo : Claims) (apiKey customerId album : GoString)
    (currentTime : Time) (k : Nat) (l : CustomerLeadParam) (st : LoopState) (o : Outcome)
    (h : addStep sv userInfo apiKey customerId album currentTime k l st = Step.stop o) :
    (o.reply = Reply.panicked ∧ o.trace = st.trace)
    ∨ ∃ e c1 c2, o.reply = Reply.json
          { Status := 400, Code := 422, Message := "lỗi upload ảnh: ", Arg := e }
        ∧ o.trace = st.trace ++ [c1, c2]
        ∧ isAlbumCall c1 = true ∧ isFailedAttach c1 = false
        ∧ isAlbumCall c2 = true ∧ isFailedAttach c2 = true := by
  cases hn : albumName sv.toLowerRune l.Bikip.Title with
  | none =>
    simp [addStep, hn] at h
    subst h
    exact Or.inl ⟨rfl, rfl⟩
  | some name =>
    cases hc : sv.CreateAlbum k apiKey name l.Bikip.Title album with
    | error e => simp [addStep, hn, hc] at h
    | ok a =>
      by_cases hi : 0 < l.Images.length
      · cases he : sv.editPhotoToAlbum k apiKey (l.Images.map (fun img => img.GalleryID)) a with
        | error e =>
          simp [addStep, hn, hc, hi, he] at h
          subst h
          exact Or.inr ⟨e, Call.CreateAlbum apiKey name l.Bikip.Title album true,
            Call.editPhotoToAlbum apiKey (l.Images.map (fun img => img.GalleryID)) a false,
            rfl, by simp, rfl, rfl, rfl, rfl⟩
        | ok r => simp [addStep, hn, hc, hi, he] at h
      · simp [addStep, hn, hc, hi] at h

theorem addStep_total (sv : Services) (userInfo : Claims) (apiKey customerId album : GoString)
    (currentTime : Time) (k : Nat) (l : CustomerLeadParam) (st : LoopState)
    (hp : (albumName sv.toLowerRune l.Bikip.Title).isSome)
    (ha : ∀ ids a, ∃ r, sv.editPhotoToAlbum k apiKey ids a = Except.ok r) :
    ∃ st1, addStep sv userInfo apiKey customerId album currentTime k l st = Step.next st1 := by
  cases hn : albumName sv.toLowerRune l.Bikip.Title with
  | none => simp [hn] at hp
  | some name =>
    cases hc : sv.CreateAlbum k apiKey name l.Bikip.Title album with
    | error e =>
      simp only [addStep, hn, hc]
      exact ⟨_, rfl⟩
    | ok a =>
      by_cases hi : 0 < l.Images.length
      · obtain ⟨r, he⟩ := ha (l.Images.map (fun img => img.GalleryID)) a
        simp only [addStep, hn, hc, List.length_map, gt_iff_lt, hi, if_true, he]
        exact ⟨_, rfl⟩
      · simp only [addStep, hn, hc, List.length_map, gt_iff_lt, hi, if_false]
        exact ⟨_, rfl⟩

theorem expectedLeads_cons (created : Nat → CustomerLeadParam → Option GoString)
    (record : Nat → CustomerLeadParam → GoString → CustomerLead) (k : Nat)
    (l : CustomerLeadParam) (rest : List CustomerLeadParam) :
    expectedLeads created record k (l :: rest)
      = expectedLeads created record k [l] ++ expectedLeads created record (k + 1) rest := by
  simp only [expectedLeads]
  cases created k l <;> simp

theorem succeeded_cons (created : Nat → CustomerLeadParam → Option GoString) (k : Nat)
    (l : CustomerLeadParam) (rest : List CustomerLeadParam) :
    succeeded created k (l :: rest)
      = succeeded created k [l] ++ succeeded created (k + 1) rest := by
  simp only [succeeded]
  cases created k l <;> simp

theorem leadAtAfter_append (init : Option Time) (ts us : List Time) :
    leadAtAfter init (ts ++ us) = leadAtAfter (leadAtAfter init ts) us := by
  simp [leadAtAfter, List.foldl_append]

theorem addLoop_next (sv : Services) (userInfo : Claims) (apiKey customerId album : GoString)
    (currentTime : Time) (subs : List CustomerLeadParam) (k : Nat) (st st1 : LoopState)
    (h : addLoop sv userInfo apiKey customerId album currentTime k subs st = Step.next st1) :
    st1.leads = st.leads ++ expectedLeads (addCreated sv apiKey album)
        (addLeadRecord sv userInfo customerId currentTime) k subs
    ∧ st1.LeadAt = leadAtAfter st.LeadAt
        ((succeeded (addCreated sv apiKey album) k subs).map (fun s => s.RegAt))
    ∧ ∃ T, st1.trace = st.trace ++ T
        ∧ ∀ c ∈ T, isAlbumCall c = true ∧ isFailedAttach c = false := by
  induction subs generalizing k st with
  | nil =>
    simp only [addLoop] at h
    injection h with h
    subst h
    simp [expectedLeads, succeeded, leadAtAfter]
  | cons l rest ih =>
    simp only [addLoop] at h
    cases hs : addStep sv userInfo apiKey customerId album currentTime k l st with
    | stop o => simp [hs] at h
    | next st2 =>
      simp only [hs] at h
      obtain ⟨h1, h2, T1, h3, h4⟩ :=
        addStep_next sv userInfo apiKey customerId album currentTime k l st st2 hs
      obtain ⟨g1, g2, T2, g3, g4⟩ := ih (k + 1) st2 h
      refine ⟨?_, ?_, T1 ++ T2, ?_, ?_⟩
      · rw [g1, h1, expectedLeads_cons _ _ k l rest, List.append_assoc]
      · rw [g2, h2, succeeded_cons _ k l rest, List.map_append, leadAtAfter_append]
      · rw [g3, h3, List.append_assoc]
      · intro c hc
        rcases List.mem_append.1 hc with hc | hc
        · exact h4 c hc
        · exact g4 c hc

theorem addLoop_stop (sv : Services) (userInfo : Claims) (apiKey customerId album : GoString)
    (currentTime : Time) (subs : List CustomerLeadParam) (k : Nat) (st : LoopState)
    (o : Outcome)
    (h : addLoop sv userInfo apiKey customerId album currentTime k subs st = Step.stop o) :
    (o.reply = Reply.panicked
      ∧ ∃ T, o.trace = st.trace ++ T ∧ ∀ c ∈ T, isAlbumCall c = true ∧ isFailedAttach c = false)
    ∨ ∃ e T c, o.reply = Reply.json
          { Status := 400, Code := 422, Message := "lỗi upload ảnh: ", Arg := e }
        ∧ o.trace = st.trace ++ T ++ [c]
        ∧ (∀ d ∈ T, isAlbumCall d = true ∧ isFailedAttach d = false)
        ∧ isAlbumCall c = true ∧ isFailedAttach c = true := by
  induction subs generalizing k st with
  | nil => simp [addLoop] at h
  | cons l rest ih =>
    simp only [addLoop] at h
    cases hs : addStep sv userInfo apiKey customerId album currentTime k l st with
    | stop o2 =>
      simp only [hs] at h
      injection h with h
      subst h
      rcases addStep_stop sv userInfo apiKey customerId album currentTime k l st o2 hs with
        ⟨hr, ht⟩ | ⟨e, c1, c2, hr, ht, a1, f1, a2, f2⟩
      · exact Or.inl ⟨hr, [], by simp [ht], by simp⟩
      · refine Or.inr ⟨e, [c1], c2, hr, by simp [ht], ?_, a2, f2⟩
        intro d hd
        simp only [List.mem_singleton] at hd
        subst hd
        exact ⟨a1, f1⟩
    | next st2 =>
      simp only [hs] at h
      obtain ⟨-, -, T1, h3, h4⟩ :=
        addStep_next sv userInfo apiKey customerId album currentTime k l st st2 hs
      rcases ih (k + 1) st2 h with ⟨hr, T, ht, hT⟩ | ⟨e, T, c, hr, ht, hT, a2, f2⟩
      · refine Or.inl ⟨hr, T1 ++ T, by rw [ht, h3, List.append_assoc], ?_⟩
        intro c hc
        rcases List.mem_append.1 hc with hc | hc
        · exact h4 c hc
        · exact hT c hc
      · refine Or.inr ⟨e, T1 ++ T, c, hr, by rw [ht, h3]; simp, ?_, a2, f2⟩
        intro d hd
        rcases List.mem_append.1 hd with hd | hd
        · exact h4 d hd
        · exact hT d hd

theorem addLoop_total (sv : Services) (userInfo : Claims) (apiKey customerId album : GoString)
    (currentTime : Time) (subs : List CustomerLeadParam) (k : Nat) (st : LoopState)
    (hp : ∀ l ∈ subs, (albumName sv.toLowerRune l.Bikip.Title).isSome)
    (ha : ∀ j ids a, ∃ r, sv.editPhotoToAlbum j apiKey ids a = Except.ok r) :
    ∃ st1, addLoop sv userInfo apiKey customerId album currentTime k subs st = Step.next st1 := by
  induction subs generalizing k st with
  | nil => exact ⟨st, rfl⟩
  | cons l rest ih =>
    obtain ⟨st2, hs⟩ := addStep_total sv userInfo apiKey customerId album currentTime k l st
      (hp l (List.mem_cons_self l rest)) (ha k)
    obtain ⟨st1, hl⟩ := ih (k + 1) st2 (fun x hx => hp x (List.mem_cons_of_mem l hx))
    exact ⟨st1, by simp only [addLoop, hs, hl]⟩

theorem leadStep_next (sv : Services) (userInfo : Claims) (apiKey id album : GoString)
    (currentTime : Time) (k : Nat) (p : CustomerLeadParam) (st st1 : LoopState)
    (h : leadStep sv userInfo apiKey id album currentTime k p st = Step.next st1) :
    st1.leads = st.leads ++ expectedLeads (leadCreated sv apiKey album)
        (leadLeadRecord sv userInfo id currentTime) k [p]
    ∧ st1.LeadAt = leadAtAfter st.LeadAt
        ((succeeded (leadCreated sv apiKey album) k [p]).map (fun s => s.RegAt))
    ∧ ∃ T, st1.trace = st.trace ++ T
        ∧ ∀ c ∈ T, isAlbumCall c = true ∧ isFailedAttach c = false := by
  cases hb : sv.bikipGet p.BikipID with
  | none =>
    simp [leadStep, hb] at h
    subst h
    simp [expectedLeads, succeeded, leadCreated, leadAtAfter, hb]
  | some bikip =>
    cases hn : albumName sv.toLowerRune bikip.Title with
    | none => simp [leadStep, hb, hn] at h
    | some name =>
      cases hc : sv.CreateAlbum k apiKey name bikip.Title album with
      | error e =>
        simp [leadStep, hb, hn, hc] at h
        subst h
        simp [expectedLeads, succeeded, leadCreated, leadAtAfter, hb, hn, hc, isAlbumCall,
          isFailedAttach]
      | ok a =>
        simp [leadStep, hb, hn, hc] at h
        subst h
        simp [expectedLeads, succeeded, leadCreated, leadAtAfter, hb, hn, hc, isAlbumCall,
          isFailedAttach, leadLeadRecord]

theorem leadStep_stop (sv : Services) (userInfo : Claims) (apiKey id album : GoString)
    (currentTime : Time) (k : Nat) (p : CustomerLeadParam) (st : LoopState) (o : Outcome)
    (h : leadStep sv userInfo apiKey id album currentTime k p st = Step.stop o) :
    o.reply = Reply.panicked ∧ o.trace = st.trace := by
  cases hb : sv.bikipGet p.BikipID with
  | none => simp [leadStep, hb] at h
  | some bikip =>
    cases hn : albumName sv.toLowerRune bikip.Title with
    | none =>
      simp [leadStep, hb, hn] at h
      subst h
      exact ⟨rfl, rfl⟩
    | some name =>
      cases hc : sv.CreateAlbum k apiKey name bikip.Title album with
      | error e => simp [leadStep, hb, hn, hc] at h
      | ok a => simp [leadStep, hb, hn, hc] at h

theorem leadStep_total (sv : Services) (userInfo : Claims) (apiKey id album : GoString)
    (currentTime : Time) (k : Nat) (p : CustomerLeadParam) (st : LoopState)
    (hp : ∀ b, sv.bikipGet p.BikipID = some b → (albumName sv.toLowerRune b.Title).isSome) :
    ∃ st1, leadStep sv userInfo apiKey id album currentTime k p st = Step.next st1 := by
  cases hb : sv.bikipGet p.BikipID with
  | none =>
    simp only [leadStep, hb]
    exact ⟨_, rfl⟩
  | some bikip =>
    cases hn : albumName sv.toLowerRune bikip.Title with
    | none =>
      have := hp bikip hb
      simp [hn] at this
    | some name =>
      cases hc : sv.CreateAlbum k apiKey name bikip.Title album with
      | error e =>
        simp only [leadStep, hb, hn, hc]
        exact ⟨_, rfl⟩
      | ok a =>
        simp only [leadStep, hb, hn, hc]
        exact ⟨_, rfl⟩

theorem leadLoop_next (sv : Services) (userInfo : Claims) (apiKey id album : GoString)
    (currentTime : Time) (subs : List CustomerLeadParam) (k : Nat) (st st1 : LoopState)
    (h : leadLoop sv userInfo apiKey id album currentTime k subs st = Step.next st1) :
    st1.leads = st.leads ++ expectedLeads (leadCreated sv apiKey album)
        (leadLeadRecord sv userInfo id currentTime) k subs
    ∧ st1.LeadAt = leadAtAfter st.LeadAt
        ((succeeded (leadCreated sv apiKey album) k subs).map (fun s => s.RegAt))
    ∧ ∃ T, st1.trace = st.trace ++ T
        ∧ ∀ c ∈ T, isAlbumCall c = true ∧ isFailedAttach c = false := by
  induction subs generalizing k st with
  | nil =>
    simp only [leadLoop] at h
    injection h with h
    subst h
    simp [expectedLeads, succeeded, leadAtAfter]
  | cons l rest ih =>
    simp only [leadLoop] at h
    cases hs : leadStep sv userInfo apiKey id album currentTime k l st with
    | stop o => simp [hs] at h
    | next st2 =>
      simp only [hs] at h
      obtain ⟨h1, h2, T1, h3, h4⟩ :=
        leadStep_next sv userInfo apiKey id album currentTime k l st st2 hs
      obtain ⟨g1, g2, T2, g3, g4⟩ := ih (k + 1) st2 h
      refine ⟨?_, ?_, T1 ++ T2, ?_, ?_⟩
      · rw [g1, h1, expectedLeads_cons _ _ k l rest, List.append_assoc]
      · rw [g2, h2, succeeded_cons _ k l rest, List.map_append, leadAtAfter_append]
      · rw [g3, h3, List.append_assoc]
      · intro c hc
        rcases List.mem_append.1 hc with hc | hc
        · exact h4 c hc
        · exact g4 c hc

theorem leadLoop_stop (sv : Services) (userInfo : Claims) (apiKey id album : GoString)
    (currentTime : Time) (subs : List CustomerLeadParam) (k : Nat) (st : LoopState)
    (o : Outcome)
    (h : leadLoop sv userInfo apiKey id album currentTime k subs st = Step.stop o) :
    o.reply = Reply.panicked
    ∧ ∃ T, o.trace = st.trace ++ T ∧ ∀ c ∈ T, isAlbumCall c = true ∧ isFailedAttach c = false := by
  induction subs generalizing k st with
  | nil => simp [leadLoop] at h
  | cons l rest ih =>
    simp only [leadLoop] at h
    cases hs : leadStep sv userInfo apiKey id album currentTime k l st with
    | stop o2 =>
      simp only [hs] at h
      injection h with h
      subst h
      obtain ⟨hr, ht⟩ := leadStep_stop sv userInfo apiKey id album currentTime k l st o2 hs
      exact ⟨hr, [], by simp [ht], by simp⟩
    | next st2 =>
      simp only [hs] at h
      obtain ⟨-, -, T1, h3, h4⟩ :=
        leadStep_next sv userInfo apiKey id album currentTime k l st st2 hs
      obtain ⟨hr, T, ht, hT⟩ := ih (k + 1) st2 h
      refine ⟨hr, T1 ++ T, by rw [ht, h3, List.append_assoc], ?_⟩
      intro c hc
      rcases List.mem_append.1 hc with hc | hc
      · exact h4 c hc
      · exact hT c hc

theorem leadLoop_total (sv : Services) (userInfo : Claims) (apiKey id album : GoString)
    (currentTime : Time) (subs : List CustomerLeadParam) (k : Nat) (st : LoopState)
    (hp : ∀ p ∈ subs, ∀ b, sv.bikipGet p.BikipID = some b →
      (albumName sv.toLowerRune b.Title).isSome) :
    ∃ st1, leadLoop sv userInfo apiKey id album currentTime k subs st = Step.next st1 := by
  induction subs generalizing k st with
  | nil => exact ⟨st, rfl⟩
  | cons l rest ih =>
    obtain ⟨st2, hs⟩ := leadStep_total sv userInfo apiKey id album currentTime k l st
      (hp l (List.mem_cons_self l rest))
    obtain ⟨st1, hl⟩ := ih (k + 1) st2 (fun x hx => hp x (List.mem_cons_of_mem l hx))
    exact ⟨st1, by simp only [leadLoop, hs, hl]⟩

theorem addLeadCalls_append (t u : List Call) :
    addLeadCalls (t ++ u) = addLeadCalls t ++ addLeadCalls u := by
  induction t with
  | nil => rfl
  | cons c rest ih => cases c <;> simp [addLeadCalls, ih]

theorem createCalls_append (t u : List Call) :
    createCalls (t ++ u) = createCalls t ++ createCalls u := by
  induction t with
  | nil => rfl
  | cons c rest ih => cases c <;> simp [createCalls, ih]

theorem addLeadCalls_of_album (t : List Call) (h : ∀ c ∈ t, isAlbumCall c = true) :
    addLeadCalls t = [] := by
  induction t with
  | nil => rfl
  | cons c rest ih =>
    have hc := h c (List.mem_cons_self c rest)
    have hr := ih (fun x hx => h x (List.mem_cons_of_mem c hx))
    cases c <;> simp_all [addLeadCalls, isAlbumCall]

theorem createCalls_of_album (t : List Call) (h : ∀ c ∈ t, isAlbumCall c = true) :
    createCalls t = [] := by
  induction t with
  | nil => rfl
  | cons c rest ih =>
    have hc := h c (List.mem_cons_self c rest)
    have hr := ih (fun x hx => h x (List.mem_cons_of_mem c hx))
    cases c <;> simp_all [createCalls, isAlbumCall]

theorem expectedLeads_map {β : Type} (created : Nat → CustomerLeadParam → Option GoString)
    (record : Nat → CustomerLeadParam → GoString → CustomerLead)
    (f : CustomerLead → β) (g : CustomerLeadParam → β)
    (hfg : ∀ k l a, f (record k l a) = g l) (k : Nat) (subs : List CustomerLeadParam) :
    (expectedLeads created record k subs).map f = (succeeded created k subs).map g := by
  induction subs generalizing k with
  | nil => rfl
  | cons l rest ih =>
    simp only [expectedLeads, succeeded]
    cases created k l <;> simp [ih, hfg]

/-- What `AddProvision` does, by the way its loop ends. -/
theorem AddProvision_cases (sv : Services) (userInfo : Claims) (apiKey customerId : GoString)
    (currentTime : Time) (candidate : Customer) (subs : List CustomerLeadParam) :
    (∃ st, addLoop sv userInfo apiKey customerId candidate.Album currentTime 0 subs
          { leads := [], LeadAt := candidate.LeadAt, trace := [] } = Step.next st
        ∧ ∃ r tail, AddProvision sv userInfo apiKey customerId currentTime candidate subs
              = { reply := Reply.json r,
                  trace := st.trace ++ Call.Create { candidate with LeadAt := st.LeadAt } :: tail }
            ∧ (tail = [] ∨ tail = [Call.AddLead st.leads])
            ∧ (sv.Create { candidate with LeadAt := st.LeadAt } = none → st.leads ≠ [] →
                tail = [Call.AddLead st.leads])
            ∧ (sv.Create { candidate with LeadAt := st.LeadAt } = none →
                (st.leads ≠ [] → sv.AddLead st.leads = none) →
                r = { Status := 200, Code := 200, Message := "Success" }))
    ∨ (∃ o, addLoop sv userInfo apiKey customerId candidate.Album currentTime 0 subs
          { leads := [], LeadAt := candidate.LeadAt, trace := [] } = Step.stop o
        ∧ AddProvision sv userInfo apiKey customerId currentTime candidate subs = o) := by
  cases hl : addLoop sv userInfo apiKey customerId candidate.Album currentTime 0 subs
      { leads := [], LeadAt := candidate.LeadAt, trace := [] } with
  | stop o => exact Or.inr ⟨o, rfl, by simp only [AddProvision, hl]⟩
  | next st =>
    refine Or.inl ⟨st, rfl, ?_⟩
    cases hcr : sv.Create { candidate with LeadAt := st.LeadAt } with
    | some e =>
      refine ⟨({ Status := 400, Code := 400, Message := "Invalid params" } : Response), [], ?_, Or.inl rfl, ?_, ?_⟩
      · simp only [AddProvision, hl, hcr]
      · intro h
        cases h
      · intro h
        cases h
    | none =>
      by_cases hne : st.leads.length > 0
      · cases had : sv.AddLead st.leads with
        | some e =>
          refine ⟨({ Status := 400, Code := 400, Message := "Add customer lead error" } : Response), [Call.AddLead st.leads], ?_, Or.inr rfl, fun _ _ => rfl, ?_⟩
          · simp only [AddProvision, hl, hcr, hne, if_true, had]
            simp
          · intro _ h2
            have hn : st.leads ≠ [] := List.length_pos.mp hne
            have h3 := h2 hn
            cases h3
        | none =>
          refine ⟨({ Status := 200, Code := 200, Message := "Success" } : Response), [Call.AddLead st.leads], ?_, Or.inr rfl, fun _ _ => rfl, fun _ _ => rfl⟩
          simp only [AddProvision, hl, hcr, hne, if_true, had]
          simp
      · refine ⟨({ Status := 200, Code := 200, Message := "Success" } : Response), [], ?_, Or.inl rfl, ?_, fun _ _ => rfl⟩
        · simp only [AddProvision, hl, hcr, hne, if_false]
        · intro _ h2
          exact absurd (List.length_pos.mpr h2) hne

/-- What `LeadProvision` does, by the way its loop ends. -/
theorem LeadProvision_cases (sv : Services) (userInfo : Claims) (apiKey id : GoString)
    (candidate : Customer) (subs : List CustomerLeadParam) :
    (∃ st, leadLoop sv userInfo apiKey id candidate.Album sv.now 0 subs
          { leads := [], LeadAt := candidate.LeadAt, trace := [] } = Step.next st
        ∧ ∃ r tail, LeadProvision sv userInfo apiKey id candidate subs
              = { reply := Reply.json r,
                  trace := st.trace ++ Call.Create { candidate with LeadAt := st.LeadAt } :: tail }
            ∧ (tail = [] ∨ tail = [Call.AddLead st.leads])
            ∧ (sv.Create { candidate with LeadAt := st.LeadAt } = none → st.leads ≠ [] →
                tail = [Call.AddLead st.leads])
            ∧ (sv.Create { candidate with LeadAt := st.LeadAt } = none →
                (st.leads ≠ [] → sv.AddLead st.leads = none) →
                r = { Status := 200, Code := 200, Message := "Success" }))
    ∨ (∃ o, leadLoop sv userInfo apiKey id candidate.Album sv.now 0 subs
          { leads := [], LeadAt := candidate.LeadAt, trace := [] } = Step.stop o
        ∧ LeadProvision sv userInfo apiKey id candidate subs = o) := by
  cases hl : leadLoop sv userInfo apiKey id candidate.Album sv.now 0 subs
      { leads := [], LeadAt := candidate.LeadAt, trace := [] } with
  | stop o => exact Or.inr ⟨o, rfl, by simp only [LeadProvision, hl]⟩
  | next st =>
    refine Or.inl ⟨st, rfl, ?_⟩
    cases hcr : sv.Create { candidate with LeadAt := st.LeadAt } with
    | some e =>
      refine ⟨({ Status := 400, Code := 400, Message := "Lỗi cập nhật thông tin ID: ", Arg := id } : Response), [], ?_, Or.inl rfl, ?_, ?_⟩
      · simp only [LeadProvision, hl, hcr]
      · intro h
        cases h
      · intro h
        cases h
    | none =>
      by_cases hne : st.leads.length > 0
      · cases had : sv.AddLead st.leads with
        | some e =>
          refine ⟨({ Status := 400, Code := 400, Message := "Add lead error", Data := Payload.text e } : Response), [Call.AddLead st.leads], ?_, Or.inr rfl, fun _ _ => rfl, ?_⟩
          · simp only [LeadProvision, hl, hcr, hne, if_true, had]
            simp
          · intro _ h2
            have hn : st.leads ≠ [] := List.length_pos.mp hne
            have h3 := h2 hn
            cases h3
        | none =>
          refine ⟨({ Status := 200, Code := 200, Message := "Success" } : Response), [Call.AddLead st.leads], ?_, Or.inr rfl, fun _ _ => rfl, fun _ _ => rfl⟩
          simp only [LeadProvision, hl, hcr, hne, if_true, had]
          simp
      · refine ⟨({ Status := 200, Code := 200, Message := "Success" } : Response), [], ?_, Or.inl rfl, ?_, fun _ _ => rfl⟩
        · simp only [LeadProvision, hl, hcr, hne, if_false]
        · intro _ h2
          exact absurd (List.length_pos.mpr h2) hne

theorem updateLeadAt_spec (init : Option Time) (t : Time) :
    ∃ y, updateLeadAt init t = some y ∧ t.Unix ≤ y.Unix
      ∧ (∀ t0, init = some t0 → t0.Unix ≤ y.Unix) ∧ (y = t ∨ init = some y) := by
  cases init with
  | none => exact ⟨t, rfl, le_refl _, (fun _ h => by cases h), Or.inl rfl⟩
  | some u =>
    by_cases hlt : u.Unix < t.Unix
    · refine ⟨t, by simp [updateLeadAt, hlt], le_refl _, ?_, Or.inl rfl⟩
      intro t0 h0
      cases h0
      exact le_of_lt hlt
    · refine ⟨u, by simp [updateLeadAt, hlt], by omega, ?_, Or.inr rfl⟩
      intro t0 h0
      cases h0
      exact le_refl _

theorem leadAtAfter_mem (init : Option Time) (ts : List Time) :
    leadAtAfter init ts = init ∨ ∃ t ∈ ts, leadAtAfter init ts = some t := by
  induction ts generalizing init with
  | nil => exact Or.inl rfl
  | cons t rest ih =>
    have hstep : leadAtAfter init (t :: rest) = leadAtAfter (updateLeadAt init t) rest := rfl
    rw [hstep]
    obtain ⟨y, hy, -, -, hor⟩ := updateLeadAt_spec init t
    rcases ih (updateLeadAt init t) with h | ⟨u, hu, h⟩
    · rw [h, hy]
      rcases hor with h1 | h1
      · exact Or.inr ⟨t, List.mem_cons_self t rest, by rw [h1]⟩
      · exact Or.inl h1.symm
    · exact Or.inr ⟨u, List.mem_cons_of_mem t hu, h⟩

theorem leadAtAfter_bound (init : Option Time) (ts : List Time) (x : Time)
    (h : leadAtAfter init ts = some x) :
    (∀ t ∈ ts, t.Unix ≤ x.Unix) ∧ (∀ t0, init = some t0 → t0.Unix ≤ x.Unix) := by
  induction ts generalizing init with
  | nil =>
    refine ⟨(fun t ht => by cases ht), fun t0 h0 => ?_⟩
    have hx : init = some x := h
    rw [h0] at hx
    cases hx
    exact le_refl _
  | cons t rest ih =>
    have hstep : leadAtAfter init (t :: rest) = leadAtAfter (updateLeadAt init t) rest := rfl
    rw [hstep] at h
    obtain ⟨y, hy, hty, hiy, -⟩ := updateLeadAt_spec init t
    obtain ⟨h1, h2⟩ := ih (updateLeadAt init t) h
    have hyx : y.Unix ≤ x.Unix := h2 y hy
    refine ⟨fun u hu => ?_, fun t0 h0 => le_trans (hiy t0 h0) hyx⟩
    rcases List.mem_cons.1 hu with hu | hu
    · rw [hu]
      exact le_trans hty hyx
    · exact h1 u hu

theorem leadAtAfter_isLatest (init : Option Time) (ts : List Time) :
    isLatestBySecond init ts (leadAtAfter init ts) := by
  unfold isLatestBySecond
  refine ⟨?_, leadAtAfter_mem init ts, ?_, fun x hx => leadAtAfter_bound init ts x hx⟩
  · intro h
    subst h
    rfl
  intro hne hnone
  cases ts with
  | nil => exact hne rfl
  | cons t rest =>
    have hstep : leadAtAfter init (t :: rest) = leadAtAfter (updateLeadAt init t) rest := rfl
    rw [hstep] at hnone
    obtain ⟨y, hy, -⟩ := updateLeadAt_spec init t
    rcases leadAtAfter_mem (updateLeadAt init t) rest with h | ⟨u, -, h⟩
    · rw [h, hy] at hnone
      cases hnone
    · rw [h] at hnone
      cases hnone

theorem isFailedAttach_album (c : Call) (h : isFailedAttach c = true) : isAlbumCall c = true := by
  cases c <;> simp_all [isFailedAttach, isAlbumCall]

/-- The calls to `s.repo.Create` and `s.repo.AddLead` made by `AddProvision`. -/
theorem AddProvision_persist (sv : Services) (userInfo : Claims) (apiKey customerId : GoString)
    (currentTime : Time) (candidate : Customer) (subs : List CustomerLeadParam) :
    (createCalls (AddProvision sv userInfo apiKey customerId currentTime candidate subs).trace = []
      ∧ addLeadCalls (AddProvision sv userInfo apiKey customerId currentTime candidate subs).trace
          = []
      ∧ ∀ st, addLoop sv userInfo apiKey customerId candidate.Album currentTime 0 subs
          { leads := [], LeadAt := candidate.LeadAt, trace := [] } ≠ Step.next st)
    ∨ (createCalls (AddProvision sv userInfo apiKey customerId currentTime candidate subs).trace
          = [{ candidate with
                LeadAt := leadAtAfter candidate.LeadAt
                  ((succeeded (addCreated sv apiKey candidate.Album) 0 subs).map
                    (fun s => s.RegAt)) }]
      ∧ (addLeadCalls (AddProvision sv userInfo apiKey customerId currentTime candidate subs).trace
            = []
          ∨ addLeadCalls
              (AddProvision sv userInfo apiKey customerId currentTime candidate subs).trace
            = [expectedLeads (addCreated sv apiKey candidate.Album)
                (addLeadRecord sv userInfo customerId currentTime) 0 subs])
      ∧ ((∀ c, sv.Create c = none) →
          expectedLeads (addCreated sv apiKey candidate.Album)
            (addLeadRecord sv userInfo customerId currentTime) 0 subs ≠ [] →
          addLeadCalls (AddProvision sv userInfo apiKey customerId currentTime candidate subs).trace
            = [expectedLeads (addCreated sv apiKey candidate.Album)
                (addLeadRecord sv userInfo customerId currentTime) 0 subs])) := by
  rcases AddProvision_cases sv userInfo apiKey customerId currentTime candidate subs with
    ⟨st, hl, r, tail, ho, htail, hcall, -⟩ | ⟨o, hl, ho⟩
  · obtain ⟨h1, h2, T, h3, h4⟩ :=
      addLoop_next sv userInfo apiKey customerId candidate.Album currentTime subs 0 _ st hl
    simp only [List.nil_append] at h1 h3
    have hT : ∀ c ∈ st.trace, isAlbumCall c = true := fun c hc => (h4 c (h3 ▸ hc)).1
    right
    rw [ho]
    simp only [createCalls_append, addLeadCalls_append, createCalls_of_album _ hT,
      addLeadCalls_of_album _ hT, List.nil_append, createCalls, addLeadCalls]
    rw [← h1, ← h2]
    refine ⟨?_, ?_, ?_⟩
    · rcases htail with ht | ht <;> simp [ht, createCalls]
    · rcases htail with ht | ht
      · left; simp [ht, addLeadCalls]
      · right; simp [ht, addLeadCalls]
    · intro hc hne
      rw [hcall (hc _) hne]
      simp [addLeadCalls]
  · left
    rw [ho]
    have hall : ∀ c ∈ o.trace, isAlbumCall c = true := by
      rcases addLoop_stop sv userInfo apiKey customerId candidate.Album currentTime subs 0 _ o hl
        with ⟨-, T, ht, hT⟩ | ⟨e, T, c, -, ht, hT, a2, -⟩
      · intro c hc
        rw [ht] at hc
        exact (hT c (by simpa using hc)).1
      · intro d hd
        rw [ht] at hd
        simp only [List.nil_append, List.mem_append, List.mem_singleton] at hd
        rcases hd with hd | hd
        · exact (hT d hd).1
        · rw [hd]; exact a2
    refine ⟨createCalls_of_album _ hall, addLeadCalls_of_album _ hall, ?_⟩
    intro st hst
    rw [hl] at hst
    cases hst

/-- The calls to `s.repo.Create` and `s.repo.AddLead` made by `LeadProvision`. -/
theorem LeadProvision_persist (sv : Services) (userInfo : Claims) (apiKey id : GoString)
    (candidate : Customer) (subs : List CustomerLeadParam) :
    (createCalls (LeadProvision sv userInfo apiKey id candidate subs).trace = []
      ∧ addLeadCalls (LeadProvision sv userInfo apiKey id candidate subs).trace = []
      ∧ ∀ st, leadLoop sv userInfo apiKey id candidate.Album sv.now 0 subs
          { leads := [], LeadAt := candidate.LeadAt, trace := [] } ≠ Step.next st)
    ∨ (createCalls (LeadProvision sv userInfo apiKey id candidate subs).trace
          = [{ candidate with
                LeadAt := leadAtAfter candidate.LeadAt
                  ((succeeded (leadCreated sv apiKey candidate.Album) 0 subs).map
                    (fun s => s.RegAt)) }]
      ∧ (addLeadCalls (LeadProvision sv userInfo apiKey id candidate subs).trace = []
          ∨ addLeadCalls (LeadProvision sv userInfo apiKey id candidate subs).trace
            = [expectedLeads (leadCreated sv apiKey candidate.Album)
                (leadLeadRecord sv userInfo id sv.now) 0 subs])
      ∧ ((∀ c, sv.Create c = none) →
          expectedLeads (leadCreated sv apiKey candidate.Album)
            (leadLeadRecord sv userInfo id sv.now) 0 subs ≠ [] →
          addLeadCalls (LeadProvision sv userInfo apiKey id candidate subs).trace
            = [expectedLeads (leadCreated sv apiKey candidate.Album)
                (leadLeadRecord sv userInfo id sv.now) 0 subs])) := by
  rcases LeadProvision_cases sv userInfo apiKey id candidate subs with
    ⟨st, hl, r, tail, ho, htail, hcall, -⟩ | ⟨o, hl, ho⟩
  · obtain ⟨h1, h2, T, h3, h4⟩ :=
      leadLoop_next sv userInfo apiKey id candidate.Album sv.now subs 0 _ st hl
    simp only [List.nil_append] at h1 h3
    have hT : ∀ c ∈ st.trace, isAlbumCall c = true := fun c hc => (h4 c (h3 ▸ hc)).1
    right
    rw [ho]
    simp only [createCalls_append, addLeadCalls_append, createCalls_of_album _ hT,
      addLeadCalls_of_album _ hT, List.nil_append, createCalls, addLeadCalls]
    rw [← h1, ← h2]
    refine ⟨?_, ?_, ?_⟩
    · rcases htail with ht | ht <;> simp [ht, createCalls]
    · rcases htail with ht | ht
      · left; simp [ht, addLeadCalls]
      · right; simp [ht, addLeadCalls]
    · intro hc hne
      rw [hcall (hc _) hne]
      simp [addLeadCalls]
  · left
    rw [ho]
    obtain ⟨-, T, ht, hT⟩ :=
      leadLoop_stop sv userInfo apiKey id candidate.Album sv.now subs 0 _ o hl
    have hall : ∀ c ∈ o.trace, isAlbumCall c = true := by
      intro c hc
      rw [ht] at hc
      exact (hT c (by simpa using hc)).1
    refine ⟨createCalls_of_album _ hall, addLeadCalls_of_album _ hall, ?_⟩
    intro st hst
    rw [hl] at hst
    cases hst

/-- How `Add` reaches, or fails to reach, its provisioning part. -/
theorem Add_cases (sv : Services) (userInfo : Claims) (bound : Except GoString CustomerParam) :
    ((Add sv userInfo bound).trace = []
      ∧ ∃ r, (Add sv userInfo bound).reply = Reply.json r ∧ r.Status = 400)
    ∨ (∃ k n d, (Add sv userInfo bound).trace = [Call.createAlbum k n d false])
    ∨ ∃ param apiKey ct cand n d, bound = Except.ok param
        ∧ Add sv userInfo bound
          = { reply := (AddProvision sv userInfo apiKey (sv.uuidNew 0) ct cand param.Leads).reply,
              trace := Call.createAlbum apiKey n d true
                :: (AddProvision sv userInfo apiKey (sv.uuidNew 0) ct cand param.Leads).trace } := by
  cases bound with
  | error e => exact Or.inl ⟨rfl, _, rfl, rfl⟩
  | ok param =>
    cases hk : sv.apiKeyGetBy userInfo.ID with
    | none =>
      left
      simp [Add, hk]
    | some apiKey =>
      cases hg : sv.GetByID (sv.uuidNew 0) with
      | some c =>
        left
        simp [Add, hk, hg]
      | none =>
        cases hc : sv.createAlbum apiKey (customerLabel ++ Trim param.FullName cutsetName)
            (Trim param.FullName cutsetName) with
        | error e =>
          right; left
          simp only [Add, hk, hg, hc]
          exact ⟨_, _, _, rfl⟩
        | ok albumId =>
          right; right
          simp only [Add, hk, hg, hc]
          exact ⟨param, apiKey, _, _, _, _, rfl, rfl⟩

/-- A failed photo attachment in the trace of `AddProvision`: the run ended
there, with the error response, before any persistence. -/
theorem AddProvision_attach_failure (sv : Services) (userInfo : Claims)
    (apiKey customerId : GoString) (currentTime : Time) (candidate : Customer)
    (subs : List CustomerLeadParam)
    (hf : ∃ c ∈ (AddProvision sv userInfo apiKey customerId currentTime candidate subs).trace,
      isFailedAttach c = true) :
    ∃ e T c, (AddProvision sv userInfo apiKey customerId currentTime candidate subs)
          = { reply := Reply.json
                { Status := 400, Code := 422, Message := "lỗi upload ảnh: ", Arg := e },
              trace := T ++ [c] }
      ∧ (∀ d ∈ T, isAlbumCall d = true ∧ isFailedAttach d = false)
      ∧ isAlbumCall c = true ∧ isFailedAttach c = true := by
  obtain ⟨c, hc, hfc⟩ := hf
  rcases AddProvision_cases sv userInfo apiKey customerId currentTime candidate subs with
    ⟨st, hl, r, tail, ho, htail, -, -⟩ | ⟨o, hl, ho⟩
  · exfalso
    obtain ⟨-, -, T, h3, h4⟩ :=
      addLoop_next sv userInfo apiKey customerId candidate.Album currentTime subs 0 _ st hl
    simp only [List.nil_append] at h3
    rw [ho] at hc
    simp only [List.mem_append, List.mem_cons] at hc
    rcases hc with hc | hc | hc
    · have := (h4 c (h3 ▸ hc)).2
      rw [this] at hfc
      cases hfc
    · rw [hc] at hfc
      cases hfc
    · rcases htail with ht | ht
      · rw [ht] at hc
        cases hc
      · rw [ht] at hc
        simp only [List.mem_singleton] at hc
        rw [hc] at hfc
        cases hfc
  · rcases addLoop_stop sv userInfo apiKey customerId candidate.Album currentTime subs 0 _ o hl
      with ⟨-, T, ht, hT⟩ | ⟨e, T, c2, hr, ht, hT, a2, f2⟩
    · exfalso
      rw [ho, ht] at hc
      have := (hT c (by simpa using hc)).2
      rw [this] at hfc
      cases hfc
    · refine ⟨e, T, c2, ?_, hT, a2, f2⟩
      rw [ho]
      cases o with
      | mk reply trace =>
        simp only at hr ht
        rw [hr, ht]
        simp

/-! ## Provisioning: the claims -/

/-- C7.  In both flows, every product reference resolving and no photo
attachment failing: whenever the bulk persist `s.repo.AddLead` is called, the
leads handed to it are exactly one lead per submission whose sub-album was
created, in submission order, each with the product id, the comment and the
registration time of its submission and the id of the customer; a submission
whose sub-album failed contributes none, and the submissions after it are still
processed.  The bulk persist is called, once, when at least one sub-album was
created, every album name could be derived and the customer persist succeeds. -/
theorem provision_persists_created_leads (sv : Services) (userInfo : Claims)
    (apiKey cid : GoString) (currentTime : Time) (candidate : Customer)
    (subs : List CustomerLeadParam)
    (_hb : ∀ p ∈ subs, (sv.bikipGet p.BikipID).isSome)
    (ha : ∀ j ids a, ∃ r, sv.editPhotoToAlbum j apiKey ids a = Except.ok r) :
    (∀ ls ∈ addLeadCalls (AddProvision sv userInfo apiKey cid currentTime candidate subs).trace,
        ls.map (fun x => (x.BikipID, x.Comment, x.RegAt, x.CID))
          = (succeeded (addCreated sv apiKey candidate.Album) 0 subs).map
              (fun l => (l.Bikip.ID, l.Comment, l.RegAt, cid)))
    ∧ ((∀ l ∈ subs, (albumName sv.toLowerRune l.Bikip.Title).isSome) →
        (∀ c, sv.Create c = none) →
        succeeded (addCreated sv apiKey candidate.Album) 0 subs ≠ [] →
        ∃ ls, addLeadCalls
            (AddProvision sv userInfo apiKey cid currentTime candidate subs).trace = [ls])
    ∧ (∀ ls ∈ addLeadCalls (LeadProvision sv userInfo apiKey cid candidate subs).trace,
        ls.map (fun x => (x.BikipID, x.Comment, x.RegAt, x.CID))
          = (succeeded (leadCreated sv apiKey candidate.Album) 0 subs).map
              (fun p => (p.BikipID, p.Comment, p.RegAt, cid)))
    ∧ ((∀ p ∈ subs, ∀ b, sv.bikipGet p.BikipID = some b →
          (albumName sv.toLowerRune b.Title).isSome) →
        (∀ c, sv.Create c = none) →
        succeeded (leadCreated sv apiKey candidate.Album) 0 subs ≠ [] →
        ∃ ls, addLeadCalls (LeadProvision sv userInfo apiKey cid candidate subs).trace = [ls]) := by
  have hmapA := expectedLeads_map (addCreated sv apiKey candidate.Album)
    (addLeadRecord sv userInfo cid currentTime)
    (fun x => (x.BikipID, x.Comment, x.RegAt, x.CID))
    (fun l => (l.Bikip.ID, l.Comment, l.RegAt, cid)) (fun _ _ _ => rfl) 0 subs
  have hmapL := expectedLeads_map (leadCreated sv apiKey candidate.Album)
    (leadLeadRecord sv userInfo cid sv.now)
    (fun x => (x.BikipID, x.Comment, x.RegAt, x.CID))
    (fun p => (p.BikipID, p.Comment, p.RegAt, cid)) (fun _ _ _ => rfl) 0 subs
  refine ⟨?_, ?_, ?_, ?_⟩
  · intro ls hls
    rcases AddProvision_persist sv userInfo apiKey cid currentTime candidate subs with
      ⟨-, h0, -⟩ | ⟨-, h0 | h1, -⟩
    · rw [h0] at hls; cases hls
    · rw [h0] at hls; cases hls
    · rw [h1] at hls
      simp only [List.mem_singleton] at hls
      rw [hls, hmapA]
  · intro hn hc hne
    rcases AddProvision_persist sv userInfo apiKey cid currentTime candidate subs with
      ⟨-, -, hstop⟩ | ⟨-, -, h2⟩
    · exfalso
      obtain ⟨st1, hst⟩ := addLoop_total sv userInfo apiKey cid candidate.Album currentTime subs 0
        { leads := [], LeadAt := candidate.LeadAt, trace := [] } hn ha
      exact hstop st1 hst
    · refine ⟨_, h2 hc ?_⟩
      intro hnil
      rw [hnil] at hmapA
      exact hne (List.map_eq_nil_iff.1 hmapA.symm)
  · intro ls hls
    rcases LeadProvision_persist sv userInfo apiKey cid candidate subs with
      ⟨-, h0, -⟩ | ⟨-, h0 | h1, -⟩
    · rw [h0] at hls; cases hls
    · rw [h0] at hls; cases hls
    · rw [h1] at hls
      simp only [List.mem_singleton] at hls
      rw [hls, hmapL]
  · intro hn hc hne
    rcases LeadProvision_persist sv userInfo apiKey cid candidate subs with
      ⟨-, -, hstop⟩ | ⟨-, -, h2⟩
    · exfalso
      obtain ⟨st1, hst⟩ := leadLoop_total sv userInfo apiKey cid candidate.Album sv.now subs 0
        { leads := [], LeadAt := candidate.LeadAt, trace := [] } hn
      exact hstop st1 hst
    · refine ⟨_, h2 hc ?_⟩
      intro hnil
      rw [hnil] at hmapL
      exact hne (List.map_eq_nil_iff.1 hmapL.symm)

/-- Witness for C7: the three sample submissions, the sub-album of the second
being refused; the bulk persist of `Add` is called once, with the leads of the
first and the third. -/
theorem provision_persists_created_leads_witness :
    (∃ ls, addLeadCalls (AddProvision sampleServices sampleClaims [107] [99, 50]
        { sec := 1000, nsec := 0 } sampleCandidate sampleSubmissions).trace = [ls])
    ∧ (addLeadCalls (AddProvision sampleServices sampleClaims [107] [99, 50]
        { sec := 1000, nsec := 0 } sampleCandidate sampleSubmissions).trace).map
          (fun ls => ls.map (fun x => (x.BikipID, x.RegAt)))
        = [[([98, 49], { sec := 10, nsec := 100 }), ([98, 51], { sec := 10, nsec := 900 })]] :=
  ⟨(provision_persists_created_leads sampleServices sampleClaims [107] [99, 50]
      { sec := 1000, nsec := 0 } sampleCandidate sampleSubmissions (by decide)
      (fun _ _ a => ⟨a, rfl⟩)).2.1 (by decide) (fun _ => rfl) (by decide),
    by decide⟩

/-- C8.  In `Add`, if a photo attachment call was made and failed, the request
ends in the error response of lines 415-418; that failed call is the last call
of the request, so no later submission is processed; and neither the customer
persist nor the bulk lead persist is called, so that no lead is persisted, those
of earlier submissions included. -/
theorem Add_attach_failure_aborts (sv : Services) (userInfo : Claims)
    (bound : Except GoString CustomerParam)
    (hf : ∃ c ∈ (Add sv userInfo bound).trace, isFailedAttach c = true) :
    (∃ e, (Add sv userInfo bound).reply
        = Reply.json { Status := 400, Code := 422, Message := "lỗi upload ảnh: ", Arg := e })
    ∧ (∃ c, (Add sv userInfo bound).trace.getLast? = some c ∧ isFailedAttach c = true)
    ∧ addLeadCalls (Add sv userInfo bound).trace = []
    ∧ createCalls (Add sv userInfo bound).trace = [] := by
  obtain ⟨c, hc, hfc⟩ := hf
  rcases Add_cases sv userInfo bound with ⟨h0, -⟩ | ⟨k, n, d, h1⟩ | ⟨param, apiKey, ct, cand, n, d, -, hA⟩
  · rw [h0] at hc
    cases hc
  · rw [h1] at hc
    simp only [List.mem_singleton] at hc
    rw [hc] at hfc
    cases hfc
  · rw [hA] at hc ⊢
    simp only [List.mem_cons] at hc
    have hin : c ∈ (AddProvision sv userInfo apiKey (sv.uuidNew 0) ct cand param.Leads).trace := by
      rcases hc with hc | hc
      · rw [hc] at hfc
        cases hfc
      · exact hc
    obtain ⟨e, T, c2, hP, hT, -, f2⟩ :=
      AddProvision_attach_failure sv userInfo apiKey (sv.uuidNew 0) ct cand param.Leads
        ⟨c, hin, hfc⟩
    rw [hP]
    have hTa : ∀ x ∈ T ++ [c2], isAlbumCall x = true := by
      intro x hx
      rcases List.mem_append.1 hx with hx | hx
      · exact (hT x hx).1
      · simp only [List.mem_singleton] at hx
        rw [hx]
        exact isFailedAttach_album c2 f2
    refine ⟨⟨e, rfl⟩, ⟨c2, ?_, f2⟩, ?_, ?_⟩
    · rw [← List.cons_append, List.getLast?_append]
      simp
    · simp only [addLeadCalls]
      exact addLeadCalls_of_album _ hTa
    · simp only [createCalls]
      exact createCalls_of_album _ hTa

/-- Witness for C8: three submissions, the photos of the second being refused
after the first was provisioned in full. -/
theorem Add_attach_failure_aborts_witness :
    (Add attachFailServices sampleClaims (Except.ok { Leads := photoSubmissions })).trace
      = [Call.createAlbum [107] customerLabel [] true,
         Call.CreateAlbum [107] (leadLabel ++ [84, 98, 49]) [84, 98, 49] [114] true,
         Call.editPhotoToAlbum [107] [[103]] [97, 48] true,
         Call.CreateAlbum [107] (leadLabel ++ [84, 98, 50]) [84, 98, 50] [114] true,
         Call.editPhotoToAlbum [107] [[103]] [97, 49] false]
    ∧ addLeadCalls
        (Add attachFailServices sampleClaims (Except.ok { Leads := photoSubmissions })).trace = [] :=
  ⟨by decide,
    (Add_attach_failure_aborts attachFailServices sampleClaims
      (Except.ok { Leads := photoSubmissions })
      ⟨Call.editPhotoToAlbum [107] [[103]] [97, 49] false, by decide, rfl⟩).2.2.1⟩

/-- The fold of `updateLeadAt` keeps the first value of the greatest second. -/
theorem leadAtAfter_keepsFirst (init : Option Time) (ts : List Time) :
    keepsFirstOfLatestSecond init ts (leadAtAfter init ts) := by
  induction ts generalizing init with
  | nil => exact Or.inl ⟨rfl, (fun t ht => by cases ht)⟩
  | cons t rest ih =>
    have hstep : leadAtAfter init (t :: rest) = leadAtAfter (updateLeadAt init t) rest := rfl
    rw [hstep]
    cases init with
    | none =>
      have hu : updateLeadAt none t = some t := rfl
      rw [hu]
      rcases ih (some t) with ⟨hr, hall⟩ | ⟨pre, x, post, hts, hr, hi, hpre, hpost⟩
      · refine Or.inr ⟨[], t, rest, rfl, hr, (fun x0 h0 => by cases h0),
          (fun u hu => by cases hu), ?_⟩
        intro u hu
        obtain ⟨x0, hx0, hle⟩ := hall u hu
        cases hx0
        exact hle
      · refine Or.inr ⟨t :: pre, x, post, (by rw [hts]; rfl), hr,
          (fun x0 h0 => by cases h0), ?_, hpost⟩
        intro u hu
        rcases List.mem_cons.1 hu with hu | hu
        · rw [hu]
          exact hi t rfl
        · exact hpre u hu
    | some u0 =>
      by_cases hlt : u0.Unix < t.Unix
      · have hu : updateLeadAt (some u0) t = some t := by simp [updateLeadAt, hlt]
        rw [hu]
        rcases ih (some t) with ⟨hr, hall⟩ | ⟨pre, x, post, hts, hr, hi, hpre, hpost⟩
        · refine Or.inr ⟨[], t, rest, rfl, hr, ?_, (fun u hu => by cases hu), ?_⟩
          · intro x0 h0
            cases h0
            exact hlt
          · intro u hu
            obtain ⟨x0, hx0, hle⟩ := hall u hu
            cases hx0
            exact hle
        · refine Or.inr ⟨t :: pre, x, post, (by rw [hts]; rfl), hr, ?_, ?_, hpost⟩
          · intro x0 h0
            cases h0
            exact lt_trans hlt (hi t rfl)
          · intro u hu
            rcases List.mem_cons.1 hu with hu | hu
            · rw [hu]
              exact hi t rfl
            · exact hpre u hu
      · have hu : updateLeadAt (some u0) t = some u0 := by simp [updateLeadAt, hlt]
        rw [hu]
        rcases ih (some u0) with ⟨hr, hall⟩ | ⟨pre, x, post, hts, hr, hi, hpre, hpost⟩
        · refine Or.inl ⟨hr, ?_⟩
          intro u hu
          rcases List.mem_cons.1 hu with hu | hu
          · rw [hu]
            exact ⟨u0, rfl, by omega⟩
          · exact hall u hu
        · refine Or.inr ⟨t :: pre, x, post, (by rw [hts]; rfl), hr, hi, ?_, hpost⟩
          intro u hu
          rcases List.mem_cons.1 hu with hu | hu
          · rw [hu]
            have := hi u0 rfl
            omega
          · exact hpre u hu

/-- The first value of the greatest second is one value only. -/
theorem keepsFirstOfLatestSecond_unique (init : Option Time) (ts : List Time)
    (r1 r2 : Option Time) (h1 : keepsFirstOfLatestSecond init ts r1)
    (h2 : keepsFirstOfLatestSecond init ts r2) : r1 = r2 := by
  have key : ∀ (pre post pre2 post2 : List Time) (x y : Time),
      pre ++ x :: post = pre2 ++ y :: post2 →
      (∀ t ∈ pre, t.Unix < x.Unix) → (∀ t ∈ post, t.Unix ≤ x.Unix) →
      (∀ t ∈ pre2, t.Unix < y.Unix) → (∀ t ∈ post2, t.Unix ≤ y.Unix) →
      ∀ a, pre2 = pre ++ a → x :: post = a ++ y :: post2 → x = y := by
    intro pre post pre2 post2 x y _ _ hpost hpre2 _ a ha hb
    cases a with
    | nil =>
      simp only [List.nil_append] at hb
      injection hb
    | cons z a2 =>
      simp only [List.cons_append] at hb
      injection hb with hz hrest
      exfalso
      have hx : x ∈ pre2 := by
        rw [ha, hz]
        exact List.mem_append_right _ (List.mem_cons_self z a2)
      have hy : y ∈ post := by
        rw [hrest]
        exact List.mem_append_right _ (List.mem_cons_self y post2)
      have := hpre2 x hx
      have := hpost y hy
      omega
  rcases h1 with ⟨hr1, hall1⟩ | ⟨pre, x, post, hts, hr1, hi1, hpre1, hpost1⟩
  · rcases h2 with ⟨hr2, -⟩ | ⟨pre2, y, post2, hts2, -, hi2, -, -⟩
    · rw [hr1, hr2]
    · exfalso
      have hy : y ∈ ts := by
        rw [hts2]
        exact List.mem_append_right _ (List.mem_cons_self y post2)
      obtain ⟨x0, hx0, hle⟩ := hall1 y hy
      have := hi2 x0 hx0
      omega
  · rcases h2 with ⟨-, hall2⟩ | ⟨pre2, y, post2, hts2, hr2, -, hpre2, hpost2⟩
    · exfalso
      have hx : x ∈ ts := by
        rw [hts]
        exact List.mem_append_right _ (List.mem_cons_self x post)
      obtain ⟨x0, hx0, hle⟩ := hall2 x hx
      have := hi1 x0 hx0
      omega
    · have heq : pre ++ x :: post = pre2 ++ y :: post2 := by rw [← hts, ← hts2]
      have hxy : x = y := by
        rcases List.append_eq_append_iff.1 heq with ⟨a, ha, hb⟩ | ⟨a, ha, hb⟩
        · exact key pre post pre2 post2 x y heq hpre1 hpost1 hpre2 hpost2 a ha hb
        · exact (key pre2 post2 pre post y x heq.symm hpre2 hpost2 hpre1 hpost1 a ha hb).symm
      rw [hr1, hr2, hxy]

/-- Counterexample to C9 as stated.  The three sample submissions: the first and
the third complete provisioning, registered at 10 s + 100 ns and 10 s + 900 ns.
The customer handed to `s.repo.Create` has `LeadAt` = 10 s + 100 ns, which is not
the later of the two. -/
theorem leadAt_not_latest_within_second :
    (succeeded (addCreated sampleServices [107] sampleCandidate.Album) 0 sampleSubmissions).map
        (fun s => s.RegAt) = [{ sec := 10, nsec := 100 }, { sec := 10, nsec := 900 }]
    ∧ createCalls (AddProvision sampleServices sampleClaims [107] [99, 50]
        { sec := 1000, nsec := 0 } sampleCandidate sampleSubmissions).trace
        = [{ sampleCandidate with LeadAt := some { sec := 10, nsec := 100 } }]
    ∧ Time.After { sec := 10, nsec := 900 } { sec := 10, nsec := 100 } = true := by
  decide

/-- C9 as amended.  In both flows, a customer handed to `s.repo.Create` after the
loop has `LeadAt` equal to its value before the call or to the registration time
of a submission that completed provisioning, with a Unix second that is the
greatest among those; it is the value before the call when no submission
completed, and it is set as soon as one did.  Among the values within that
greatest second it is the one processed first, the value before the call coming
before the submissions and these in submission order, and it is the only value
of which this is true.  The customer is handed over, once, whenever the loop
runs to its end. -/
theorem provision_leadAt_latest_by_second (sv : Services) (userInfo : Claims)
    (apiKey cid : GoString) (currentTime : Time) (candidate : Customer)
    (subs : List CustomerLeadParam) :
    (∀ c ∈ createCalls (AddProvision sv userInfo apiKey cid currentTime candidate subs).trace,
        isLatestBySecond candidate.LeadAt
          ((succeeded (addCreated sv apiKey candidate.Album) 0 subs).map (fun s => s.RegAt))
          c.LeadAt
        ∧ keepsFirstOfLatestSecond candidate.LeadAt
          ((succeeded (addCreated sv apiKey candidate.Album) 0 subs).map (fun s => s.RegAt))
          c.LeadAt
        ∧ ∀ r, keepsFirstOfLatestSecond candidate.LeadAt
            ((succeeded (addCreated sv apiKey candidate.Album) 0 subs).map (fun s => s.RegAt))
            r → r = c.LeadAt)
    ∧ ((∀ l ∈ subs, (albumName sv.toLowerRune l.Bikip.Title).isSome) →
        (∀ j ids a, ∃ r, sv.editPhotoToAlbum j apiKey ids a = Except.ok r) →
        ∃ c, createCalls
            (AddProvision sv userInfo apiKey cid currentTime candidate subs).trace = [c])
    ∧ (∀ c ∈ createCalls (LeadProvision sv userInfo apiKey cid candidate subs).trace,
        isLatestBySecond candidate.LeadAt
          ((succeeded (leadCreated sv apiKey candidate.Album) 0 subs).map (fun s => s.RegAt))
          c.LeadAt
        ∧ keepsFirstOfLatestSecond candidate.LeadAt
          ((succeeded (leadCreated sv apiKey candidate.Album) 0 subs).map (fun s => s.RegAt))
          c.LeadAt
        ∧ ∀ r, keepsFirstOfLatestSecond candidate.LeadAt
            ((succeeded (leadCreated sv apiKey candidate.Album) 0 subs).map (fun s => s.RegAt))
            r → r = c.LeadAt)
    ∧ ((∀ p ∈ subs, ∀ b, sv.bikipGet p.BikipID = some b →
          (albumName sv.toLowerRune b.Title).isSome) →
        ∃ c, createCalls (LeadProvision sv userInfo apiKey cid candidate subs).trace = [c]) := by
  refine ⟨?_, ?_, ?_, ?_⟩
  · intro c hc
    rcases AddProvision_persist sv userInfo apiKey cid currentTime candidate subs with
      ⟨h0, -, -⟩ | ⟨h1, -, -⟩
    · rw [h0] at hc; cases hc
    · rw [h1] at hc
      simp only [List.mem_singleton] at hc
      rw [hc]
      exact ⟨leadAtAfter_isLatest _ _, leadAtAfter_keepsFirst _ _,
        fun r hr => keepsFirstOfLatestSecond_unique _ _ _ _ hr (leadAtAfter_keepsFirst _ _)⟩
  · intro hn ha
    rcases AddProvision_persist sv userInfo apiKey cid currentTime candidate subs with
      ⟨-, -, hstop⟩ | ⟨h1, -, -⟩
    · exfalso
      obtain ⟨st1, hst⟩ := addLoop_total sv userInfo apiKey cid candidate.Album currentTime subs 0
        { leads := [], LeadAt := candidate.LeadAt, trace := [] } hn ha
      exact hstop st1 hst
    · exact ⟨_, h1⟩
  · intro c hc
    rcases LeadProvision_persist sv userInfo apiKey cid candidate subs with
      ⟨h0, -, -⟩ | ⟨h1, -, -⟩
    · rw [h0] at hc; cases hc
    · rw [h1] at hc
      simp only [List.mem_singleton] at hc
      rw [hc]
      exact ⟨leadAtAfter_isLatest _ _, leadAtAfter_keepsFirst _ _,
        fun r hr => keepsFirstOfLatestSecond_unique _ _ _ _ hr (leadAtAfter_keepsFirst _ _)⟩
  · intro hn
    rcases LeadProvision_persist sv userInfo apiKey cid candidate subs with
      ⟨-, -, hstop⟩ | ⟨h1, -, -⟩
    · exfalso
      obtain ⟨st1, hst⟩ := leadLoop_total sv userInfo apiKey cid candidate.Album sv.now subs 0
        { leads := [], LeadAt := candidate.LeadAt, trace := [] } hn
      exact hstop st1 hst
    · exact ⟨_, h1⟩

/-- Counterexample to C10 as stated.  `Lead` for the sample customer, called by
its owner with an empty body list, answers 400 "Invalid params", not success. -/
theorem Lead_empty_body_rejected :
    sampleServices.GetByID [99, 50] = some sampleCandidate
    ∧ sampleCandidate.UserID = sampleClaims.ID
    ∧ Lead sampleServices sampleClaims [99, 50] (Except.ok [])
        = { reply := Reply.json { Status := 400, Code := 400, Message := "Invalid params" },
            trace := [] } := by
  decide

/-- C10 as amended.  `Add` with no embedded leads creates no sub-album, attaches
no photo and does not call the bulk lead persist, and it answers success once the
api key is found, the identifier is new, the root album is created and the
customer persist succeeds.  `Lead` with an empty body list makes no call at all
and answers with an error, 400 "Invalid params" when the customer exists and
belongs to the caller. -/
theorem empty_submission_list (sv : Services) (userInfo : Claims) (id : GoString)
    (param : CustomerParam) (h : param.Leads = []) :
    (∀ c ∈ (Add sv userInfo (Except.ok param)).trace, isAlbumCall c = false)
    ∧ addLeadCalls (Add sv userInfo (Except.ok param)).trace = []
    ∧ (∀ apiKey albumId, sv.apiKeyGetBy userInfo.ID = some apiKey →
        sv.GetByID (sv.uuidNew 0) = none →
        sv.createAlbum apiKey (customerLabel ++ Trim param.FullName cutsetName)
          (Trim param.FullName cutsetName) = Except.ok albumId →
        (∀ c, sv.Create c = none) →
        (Add sv userInfo (Except.ok param)).reply
          = Reply.json { Status := 200, Code := 200, Message := "Success" })
    ∧ (Lead sv userInfo id (Except.ok [])).trace = []
    ∧ (∃ r, (Lead sv userInfo id (Except.ok [])).reply = Reply.json r
        ∧ r.Status ≠ 200 ∧ r.Code ≠ 200)
    ∧ (∀ cand, sv.GetByID id = some cand → cand.UserID = userInfo.ID →
        (Lead sv userInfo id (Except.ok [])).reply
          = Reply.json { Status := 400, Code := 400, Message := "Invalid params" }) := by
  have hAdd : ∀ c ∈ (Add sv userInfo (Except.ok param)).trace,
      isAlbumCall c = false ∧ addLeadCalls [c] = [] := by
    cases hk : sv.apiKeyGetBy userInfo.ID with
    | none => simp [Add, hk]
    | some apiKey =>
      cases hg : sv.GetByID (sv.uuidNew 0) with
      | some c => simp [Add, hk, hg]
      | none =>
        cases hc : sv.createAlbum apiKey (customerLabel ++ Trim param.FullName cutsetName)
            (Trim param.FullName cutsetName) with
        | error e => simp [Add, hk, hg, hc, isAlbumCall, addLeadCalls]
        | ok albumId =>
          simp only [Add, hk, hg, hc, h, AddProvision, addLoop]
          split <;> simp [isAlbumCall, addLeadCalls]
  refine ⟨fun c hc => (hAdd c hc).1, ?_, ?_, ?_, ?_, ?_⟩
  · generalize (Add sv userInfo (Except.ok param)).trace = t at hAdd
    induction t with
    | nil => rfl
    | cons c rest ih =>
      have h1 := (hAdd c (List.mem_cons_self c rest)).2
      have h2 := ih (fun x hx => hAdd x (List.mem_cons_of_mem c hx))
      have happ := addLeadCalls_append [c] rest
      simp only [List.singleton_append] at happ
      rw [happ, h1, h2]
      rfl
  · intro apiKey albumId hk hg hc hcr
    simp [Add, hk, hg, hc, h, AddProvision, addLoop, hcr]
  · unfold Lead
    cases sv.GetByID id with
    | none => rfl
    | some cand =>
      simp only
      split <;> rfl
  · unfold Lead
    cases sv.GetByID id with
    | none => exact ⟨_, rfl, by simp, by simp⟩
    | some cand =>
      simp only
      split
      · exact ⟨_, rfl, by simp, by simp⟩
      · exact ⟨_, rfl, by simp, by simp⟩
  · intro cand hg hu
    simp [Lead, hg, hu]

/-- Witness for C10 as amended: `Add` with the sample collaborators and no
embedded leads creates the root album, persists the customer and answers
success. -/
theorem empty_submission_list_witness :
    (Add sampleServices sampleClaims (Except.ok {})).reply
      = Reply.json { Status := 200, Code := 200, Message := "Success" } :=
  (empty_submission_list sampleServices sampleClaims [99, 50] {} rfl).2.2.1 [107] [114]
    rfl rfl rfl (fun _ => rfl)

/-! ## Enrichment run twice -/

theorem poolFunc_userID (sv : Services) (c : Customer) : (poolFunc sv c).1.UserID = c.UserID := by
  rw [poolFunc_frame sv c]

/-- A worker run on the customer it left leaves it again as it is. -/
theorem poolFunc_idem (sv : Services) (c : Customer) :
    poolFunc sv (poolFunc sv c).1 = poolFunc sv c := by
  cases hu : sv.userGetByID c.UserID with
  | none => simp [poolFunc, hu]
  | some u =>
    cases hl : sv.ListLead c.ID 0 10 with
    | mk leads rest =>
      cases rest with
      | mk count err =>
        cases leads with
        | none => simp [poolFunc, hu, hl]
        | some ls =>
          cases err with
          | true => simp [poolFunc, hu, hl]
          | false => simp [poolFunc, hu, hl]

/-- C11.  The lookups being fixed, enrichment run on the customers a first run
left leaves every one of them as it is: owner summary, lead page items and
total, and the owner and product summary of each lead are those of the first
run.  When the first run returns its customers, the second run returns the same
customers. -/
theorem enrich_idempotent (sv : Services) (cs : List Customer) :
    (fanOut sv (fanOut sv cs).customers).customers = (fanOut sv cs).customers
    ∧ (∀ out, enrich sv cs = some out → enrich sv out = some out)
    ∧ ∀ (i : Nat) (c d : Customer), (fanOut sv cs).customers[i]? = some c →
        (fanOut sv (fanOut sv cs).customers).customers[i]? = some d →
        d.User = c.User ∧ d.Lead = c.Lead := by
  have hstate : (fanOut sv (fanOut sv cs).customers).customers = (fanOut sv cs).customers := by
    simp only [fanOut_customers, List.map_map]
    apply List.map_congr_left
    intro c _
    simp only [Function.comp_apply]
    rw [poolFunc_idem]
  refine ⟨hstate, ?_, ?_⟩
  · intro out hout
    have hall : ∀ c ∈ cs, (sv.userGetByID c.UserID).isSome :=
      (enrich_isSome_iff sv cs).1 (by rw [hout]; rfl)
    rw [enrich_of_lookups_ok sv cs hall] at hout
    injection hout with hout
    have hall2 : ∀ c ∈ out, (sv.userGetByID c.UserID).isSome := by
      intro d hd
      rw [← hout] at hd
      obtain ⟨c, hc, rfl⟩ := List.mem_map.1 hd
      rw [poolFunc_userID]
      exact hall c hc
    rw [enrich_of_lookups_ok sv out hall2, ← hout, List.map_map]
    congr 1
    apply List.map_congr_left
    intro c _
    simp only [Function.comp_apply]
    rw [poolFunc_idem]
  · intro i c d hc hd
    rw [hstate, hc] at hd
    injection hd with hd
    rw [hd]
    exact ⟨rfl, rfl⟩

/-! ## Photo attachment -/

theorem attachCalls_append (t u : List Call) :
    attachCalls (t ++ u) = attachCalls t ++ attachCalls u := by
  induction t with
  | nil => rfl
  | cons c rest ih => cases c <;> simp [attachCalls, ih]

theorem expectedAttach_cons (created : Nat → CustomerLeadParam → Option GoString) (k : Nat)
    (l : CustomerLeadParam) (rest : List CustomerLeadParam) :
    expectedAttach created k (l :: rest)
      = expectedAttach created k [l] ++ expectedAttach created (k + 1) rest := by
  simp only [expectedAttach]
  cases created k l with
  | none => simp
  | some a => by_cases hi : l.Images.length > 0 <;> simp [hi]

theorem addStep_attach (sv : Services) (userInfo : Claims) (apiKey customerId album : GoString)
    (currentTime : Time) (k : Nat) (l : CustomerLeadParam) (st st1 : LoopState)
    (h : addStep sv userInfo apiKey customerId album currentTime k l st = Step.next st1) :
    attachCalls st1.trace
      = attachCalls st.trace ++ expectedAttach (addCreated sv apiKey album) k [l] := by
  cases hn : albumName sv.toLowerRune l.Bikip.Title with
  | none => simp [addStep, hn] at h
  | some name =>
    cases hc : sv.CreateAlbum k apiKey name l.Bikip.Title album with
    | error e =>
      simp [addStep, hn, hc] at h
      subst h
      simp [attachCalls_append, attachCalls, expectedAttach, addCreated, hn, hc]
    | ok a =>
      by_cases hi : 0 < l.Images.length
      · cases he : sv.editPhotoToAlbum k apiKey (l.Images.map (fun img => img.GalleryID)) a with
        | error e => simp [addStep, hn, hc, hi, he] at h
        | ok r =>
          simp [addStep, hn, hc, hi, he] at h
          subst h
          simp [attachCalls_append, attachCalls, expectedAttach, addCreated, hn, hc, hi]
      · simp [addStep, hn, hc, hi] at h
        subst h
        simp [attachCalls_append, attachCalls, expectedAttach, addCreated, hn, hc, hi]

theorem addLoop_attach (sv : Services) (userInfo : Claims) (apiKey customerId album : GoString)
    (currentTime : Time) (subs : List CustomerLeadParam) (k : Nat) (st st1 : LoopState)
    (h : addLoop sv userInfo apiKey customerId album currentTime k subs st = Step.next st1) :
    attachCalls st1.trace
      = attachCalls st.trace ++ expectedAttach (addCreated sv apiKey album) k subs := by
  induction subs generalizing k st with
  | nil =>
    simp only [addLoop] at h
    injection h with h
    subst h
    simp [expectedAttach]
  | cons l rest ih =>
    simp only [addLoop] at h
    cases hs : addStep sv userInfo apiKey customerId album currentTime k l st with
    | stop o => simp [hs] at h
    | next st2 =>
      simp only [hs] at h
      rw [ih (k + 1) st2 h,
        addStep_attach sv userInfo apiKey customerId album currentTime k l st st2 hs,
        expectedAttach_cons _ k l rest, List.append_assoc]

/-- In `Add`, when the loop runs to its end, the photo attachment calls are
exactly the expected ones: one per submission with an image and a created
sub-album, none for a submission without images. -/
theorem AddProvision_attach (sv : Services) (userInfo : Claims) (apiKey customerId : GoString)
    (currentTime : Time) (candidate : Customer) (subs : List CustomerLeadParam)
    (st : LoopState)
    (hl : addLoop sv userInfo apiKey customerId candidate.Album currentTime 0 subs
      { leads := [], LeadAt := candidate.LeadAt, trace := [] } = Step.next st) :
    attachCalls (AddProvision sv userInfo apiKey customerId currentTime candidate subs).trace
      = expectedAttach (addCreated sv apiKey candidate.Album) 0 subs := by
  have ha := addLoop_attach sv userInfo apiKey customerId candidate.Album currentTime subs 0 _ st hl
  simp only [attachCalls, List.nil_append] at ha
  rcases AddProvision_cases sv userInfo apiKey customerId currentTime candidate subs with
    ⟨st2, hl2, r, tail, ho, htail, -, -⟩ | ⟨o, hl2, -⟩
  · rw [hl] at hl2
    injection hl2 with hl2
    subst hl2
    rw [ho]
    simp only [attachCalls_append, ha]
    rcases htail with ht | ht <;> simp [ht, attachCalls]
  · rw [hl] at hl2
    cases hl2

theorem leadStep_attach (sv : Services) (userInfo : Claims) (apiKey id album : GoString)
    (currentTime : Time) (k : Nat) (p : CustomerLeadParam) (st st1 : LoopState)
    (h : leadStep sv userInfo apiKey id album currentTime k p st = Step.next st1) :
    attachCalls st1.trace = attachCalls st.trace := by
  cases hb : sv.bikipGet p.BikipID with
  | none =>
    simp [leadStep, hb] at h
    subst h
    rfl
  | some bikip =>
    cases hn : albumName sv.toLowerRune bikip.Title with
    | none => simp [leadStep, hb, hn] at h
    | some name =>
      cases hc : sv.CreateAlbum k apiKey name bikip.Title album with
      | error e =>
        simp [leadStep, hb, hn, hc] at h
        subst h
        simp [attachCalls_append, attachCalls]
      | ok a =>
        simp [leadStep, hb, hn, hc] at h
        subst h
        simp [attachCalls_append, attachCalls]

theorem leadLoop_attach (sv : Services) (userInfo : Claims) (apiKey id album : GoString)
    (currentTime : Time) (subs : List CustomerLeadParam) (k : Nat) (st : LoopState) :
    (∀ st1, leadLoop sv userInfo apiKey id album currentTime k subs st = Step.next st1 →
        attachCalls st1.trace = attachCalls st.trace)
    ∧ (∀ o, leadLoop sv userInfo apiKey id album currentTime k subs st = Step.stop o →
        attachCalls o.trace = attachCalls st.trace) := by
  induction subs generalizing k st with
  | nil =>
    refine ⟨fun st1 h => ?_, fun o h => ?_⟩
    · simp only [leadLoop] at h
      injection h with h
      rw [h]
    · simp [leadLoop] at h
  | cons l rest ih =>
    cases hs : leadStep sv userInfo apiKey id album currentTime k l st with
    | stop o2 =>
      obtain ⟨-, ht⟩ := leadStep_stop sv userInfo apiKey id album currentTime k l st o2 hs
      refine ⟨fun st1 h => ?_, fun o h => ?_⟩
      · simp [leadLoop, hs] at h
      · simp only [leadLoop, hs] at h
        injection h with h
        rw [← h, ht]
    | next st2 =>
      have h2 := leadStep_attach sv userInfo apiKey id album currentTime k l st st2 hs
      refine ⟨fun st1 h => ?_, fun o h => ?_⟩
      · simp only [leadLoop, hs] at h
        rw [(ih (k + 1) st2).1 st1 h, h2]
      · simp only [leadLoop, hs] at h
        rw [(ih (k + 1) st2).2 o h, h2]

/-- The handler `Lead` makes no photo attachment call, whatever the submissions. -/
theorem Lead_no_attach (sv : Services) (userInfo : Claims) (id : GoString)
    (body : Except GoString (List CustomerLeadParam)) :
    attachCalls (Lead sv userInfo id body).trace = [] := by
  have hP : ∀ apiKey candidate params,
      attachCalls (LeadProvision sv userInfo apiKey id candidate params).trace = [] := by
    intro apiKey candidate params
    have hloop := leadLoop_attach sv userInfo apiKey id candidate.Album sv.now params 0
      { leads := [], LeadAt := candidate.LeadAt, trace := [] }
    rcases LeadProvision_cases sv userInfo apiKey id candidate params with
      ⟨st, hl, r, tail, ho, htail, -, -⟩ | ⟨o, hl, ho⟩
    · rw [ho]
      simp only [attachCalls_append, hloop.1 st hl]
      rcases htail with ht | ht <;> simp [ht, attachCalls]
    · rw [ho, hloop.2 o hl]
      rfl
  unfold Lead
  cases sv.GetByID id with
  | none => rfl
  | some candidate =>
    simp only
    split
    · rfl
    · cases body with
      | error e => rfl
      | ok params =>
        simp only
        split
        · rfl
        · cases sv.apiKeyGetBy userInfo.ID with
          | none => rfl
          | some apiKey => exact hP apiKey candidate params

/-- C12 (defect of the code).  One submission with one image, its product found
and its sub-album created.  `Lead` sets the album of the image to the new
sub-album in the lead it persists, and makes no photo attachment call; `Add`, for
the same submission, calls the attachment once with the gallery id of the image
and the new sub-album. -/
theorem Lead_skips_photo_attachment :
    (Lead sampleServices sampleClaims [99, 50]
        (Except.ok [sampleSubmission [98, 49] { sec := 10, nsec := 0 } [sampleImage]])).reply
      = Reply.json { Status := 200, Code := 200, Message := "Success" }
    ∧ attachCalls (Lead sampleServices sampleClaims [99, 50]
        (Except.ok [sampleSubmission [98, 49] { sec := 10, nsec := 0 } [sampleImage]])).trace = []
    ∧ (addLeadCalls (Lead sampleServices sampleClaims [99, 50]
        (Except.ok [sampleSubmission [98, 49] { sec := 10, nsec := 0 } [sampleImage]])).trace).map
          (fun ls => ls.map (fun x => x.Images))
        = [[[{ GalleryID := [103], Album := [97, 48], Category := [] }]]]
    ∧ attachCalls (Add sampleServices sampleClaims (Except.ok
        { Leads := [sampleSubmission [98, 49] { sec := 10, nsec := 0 } [sampleImage]] })).trace
        = [([[103]], [97, 48])]
    ∧ (addLeadCalls (Add sampleServices sampleClaims (Except.ok
        { Leads := [sampleSubmission [98, 49] { sec := 10, nsec := 0 } [sampleImage]] })).trace).map
          (fun ls => ls.map (fun x => x.Images))
        = [[[{ GalleryID := [103], Album := [97, 48], Category := category7 }]]] := by
  decide

/-! ## The persisted `leadAt` -/

theorem persisted_append (sv : Services) (p : Persisted) (t u : List Call) :
    persisted sv p (t ++ u) = persisted sv (persisted sv p t) u := by
  simp [persisted, List.foldl_append]

theorem persisted_of_album (sv : Services) (p : Persisted) (t : List Call)
    (h : ∀ c ∈ t, isAlbumCall c = true) : persisted sv p t = p := by
  induction t generalizing p with
  | nil => rfl
  | cons c rest ih =>
    have hc := h c (List.mem_cons_self c rest)
    have hstep : persisted sv p (c :: rest) = persisted sv (persistCall sv p c) rest := rfl
    have hpc : persistCall sv p c = p := by
      cases c <;> simp_all [persistCall, isAlbumCall]
    rw [hstep, hpc]
    exact ih p (fun x hx => h x (List.mem_cons_of_mem c hx))

/-- The registration times offered to `LeadAt`, when there is at least one, leave
it set, at a Unix second that none of them and none of the leads persisted
before exceeds. -/
theorem leadAtAfter_covers (p : Persisted) (ts : List Time) (hinv : withinLeadAt p)
    (hne : ts ≠ []) :
    ∃ x, leadAtAfter p.LeadAt ts = some x
      ∧ (∀ t ∈ p.regAts, t.Unix ≤ x.Unix) ∧ (∀ t ∈ ts, t.Unix ≤ x.Unix) := by
  obtain ⟨-, -, hset, hbound⟩ := leadAtAfter_isLatest p.LeadAt ts
  cases hx : leadAtAfter p.LeadAt ts with
  | none => exact absurd hx (hset hne)
  | some x =>
    obtain ⟨h1, h2⟩ := hbound x hx
    refine ⟨x, rfl, ?_, h1⟩
    intro t ht
    obtain ⟨x0, hx0, hle⟩ := hinv t ht
    exact le_trans hle (h2 x0 hx0)

/-- The store after the persistence tail of a provisioning call: the customer
`cand`, whose `LeadAt` is what the registration times of `leads` made of the
stored one, is written, and then `leads` if the write succeeded and there are
any. -/
theorem withinLeadAt_tail (sv : Services) (p0 : Persisted) (cand : Customer)
    (leads : List CustomerLead) (T : List Call)
    (hT : ∀ c ∈ T, isAlbumCall c = true) (hinv : withinLeadAt p0)
    (hc : cand.LeadAt = leadAtAfter p0.LeadAt (leads.map (fun l => l.RegAt))) :
    withinLeadAt (persisted sv p0 (T ++ Call.Create cand ::
        (if sv.Create cand = none then (if leads.length > 0 then [Call.AddLead leads] else [])
          else [])))
    ∧ ((∀ ls, sv.AddLead ls = none) →
        (persisted sv p0 (T ++ Call.Create cand ::
          (if sv.Create cand = none then (if leads.length > 0 then [Call.AddLead leads] else [])
            else []))).LeadAt = p0.LeadAt
        ∨ ∃ t ∈ (persisted sv p0 (T ++ Call.Create cand ::
          (if sv.Create cand = none then (if leads.length > 0 then [Call.AddLead leads] else [])
            else []))).regAts,
          (persisted sv p0 (T ++ Call.Create cand ::
            (if sv.Create cand = none then (if leads.length > 0 then [Call.AddLead leads] else [])
              else []))).LeadAt = some t) := by
  rw [persisted_append, persisted_of_album sv p0 T hT]
  cases hcr : sv.Create cand with
  | some e =>
    have hp : persisted sv p0 [Call.Create cand] = p0 := by
      simp [persisted, persistCall, hcr]
    simp only [reduceCtorEq, if_false, hp]
    exact ⟨hinv, fun _ => Or.inl trivial⟩
  | none =>
    by_cases hlen : leads.length > 0
    · have hne : leads.map (fun l => l.RegAt) ≠ [] := by
        intro h
        rw [List.map_eq_nil_iff] at h
        rw [h] at hlen
        simp at hlen
      obtain ⟨x, hx, hold, hnew⟩ := leadAtAfter_covers p0 _ hinv hne
      rw [← hc] at hx
      cases had : sv.AddLead leads with
      | some e =>
        have hp : persisted sv p0 [Call.Create cand, Call.AddLead leads]
            = { p0 with LeadAt := cand.LeadAt } := by
          simp [persisted, persistCall, hcr, had]
        simp only [if_true, hlen, hp]
        refine ⟨?_, ?_⟩
        · intro t ht
          exact ⟨x, hx, hold t ht⟩
        · intro hall
          rw [hall leads] at had
          cases had
      | none =>
        have hp : persisted sv p0 [Call.Create cand, Call.AddLead leads]
            = { LeadAt := cand.LeadAt, regAts := p0.regAts ++ leads.map (fun l => l.RegAt) } := by
          simp [persisted, persistCall, hcr, had]
        simp only [if_true, hlen, hp]
        refine ⟨?_, ?_⟩
        · intro t ht
          rcases List.mem_append.1 ht with ht | ht
          · exact ⟨x, hx, hold t ht⟩
          · exact ⟨x, hx, hnew t ht⟩
        · intro _
          rcases leadAtAfter_mem p0.LeadAt (leads.map (fun l => l.RegAt)) with h | ⟨t, ht, h⟩
          · left
            show cand.LeadAt = p0.LeadAt
            rw [hc, h]
          · right
            refine ⟨t, List.mem_append_right _ ht, ?_⟩
            show cand.LeadAt = some t
            rw [hc, h]
    · have hnil : leads = [] := by
        cases leads with
        | nil => rfl
        | cons a r => simp at hlen
      have hsame : cand.LeadAt = p0.LeadAt := by
        rw [hc, hnil]
        rfl
      have hp : persisted sv p0 [Call.Create cand] = p0 := by
        simp [persisted, persistCall, hcr, hsame]
      simp only [if_true, hlen, if_false, hp]
      exact ⟨hinv, fun _ => Or.inl trivial⟩

/-- The calls of `AddProvision`, by the way its loop ends. -/
theorem AddProvision_trace (sv : Services) (userInfo : Claims) (apiKey customerId : GoString)
    (currentTime : Time) (candidate : Customer) (subs : List CustomerLeadParam) :
    (∀ st, addLoop sv userInfo apiKey customerId candidate.Album currentTime 0 subs
          { leads := [], LeadAt := candidate.LeadAt, trace := [] } = Step.next st →
        (AddProvision sv userInfo apiKey customerId currentTime candidate subs).trace
          = st.trace ++ Call.Create { candidate with LeadAt := st.LeadAt } ::
              (if sv.Create { candidate with LeadAt := st.LeadAt } = none then
                (if st.leads.length > 0 then [Call.AddLead st.leads] else [])
              else []))
    ∧ (∀ o, addLoop sv userInfo apiKey customerId candidate.Album currentTime 0 subs
          { leads := [], LeadAt := candidate.LeadAt, trace := [] } = Step.stop o →
        AddProvision sv userInfo apiKey customerId currentTime candidate subs = o) := by
  refine ⟨fun st hl => ?_, fun o hl => by simp only [AddProvision, hl]⟩
  cases hcr : sv.Create { candidate with LeadAt := st.LeadAt } with
  | some e => simp [AddProvision, hl, hcr]
  | none =>
    by_cases hlen : st.leads.length > 0
    · cases had : sv.AddLead st.leads <;> simp [AddProvision, hl, hcr, hlen, had]
    · simp [AddProvision, hl, hcr, hlen]

/-- The calls of `LeadProvision`, by the way its loop ends. -/
theorem LeadProvision_trace (sv : Services) (userInfo : Claims) (apiKey id : GoString)
    (candidate : Customer) (subs : List CustomerLeadParam) :
    (∀ st, leadLoop sv userInfo apiKey id candidate.Album sv.now 0 subs
          { leads := [], LeadAt := candidate.LeadAt, trace := [] } = Step.next st →
        (LeadProvision sv userInfo apiKey id candidate subs).trace
          = st.trace ++ Call.Create { candidate with LeadAt := st.LeadAt } ::
              (if sv.Create { candidate with LeadAt := st.LeadAt } = none then
                (if st.leads.length > 0 then [Call.AddLead st.leads] else [])
              else []))
    ∧ (∀ o, leadLoop sv userInfo apiKey id candidate.Album sv.now 0 subs
          { leads := [], LeadAt := candidate.LeadAt, trace := [] } = Step.stop o →
        LeadProvision sv userInfo apiKey id candidate subs = o) := by
  refine ⟨fun st hl => ?_, fun o hl => by simp only [LeadProvision, hl]⟩
  cases hcr : sv.Create { candidate with LeadAt := st.LeadAt } with
  | some e => simp [LeadProvision, hl, hcr]
  | none =>
    by_cases hlen : st.leads.length > 0
    · cases had : sv.AddLead st.leads <;> simp [LeadProvision, hl, hcr, hlen, had]
    · simp [LeadProvision, hl, hcr, hlen]

/-- Counterexample to C13 as stated, on the store of customer `"c2"`.
`Lead` with the three sample submissions, on an empty store, persists `leadAt` =
10 s + 100 ns and a lead registered at 10 s + 900 ns, which is later.  `Lead`
with one submission, when the bulk persist fails, persists `leadAt` = second 10
and no lead.  `Update` with one new lead registered at second 50, on a store
with `leadAt` at second 5, persists the lead and leaves `leadAt` at second 5. -/
theorem persisted_leadAt_not_maximum :
    persisted sampleServices { LeadAt := none, regAts := [] }
        (Lead sampleServices sampleClaims [99, 50] (Except.ok sampleSubmissions)).trace
      = { LeadAt := some { sec := 10, nsec := 100 },
          regAts := [{ sec := 10, nsec := 100 }, { sec := 10, nsec := 900 }] }
    ∧ Time.After { sec := 10, nsec := 900 } { sec := 10, nsec := 100 } = true
    ∧ persisted { sampleServices with AddLead := fun _ => some [101] }
        { LeadAt := none, regAts := [] }
        (Lead { sampleServices with AddLead := fun _ => some [101] } sampleClaims [99, 50]
          (Except.ok [sampleSubmission [98, 49] { sec := 10, nsec := 0 } []])).trace
      = { LeadAt := some { sec := 10, nsec := 0 }, regAts := [] }
    ∧ persisted storedServices storedBefore
        (Update storedServices sampleClaims [99, 50]
          (Except.ok { Leads := [sampleSubmission [98, 49] { sec := 50, nsec := 0 } []] })).trace
      = { LeadAt := some { sec := 5, nsec := 0 },
          regAts := [{ sec := 5, nsec := 0 }, { sec := 50, nsec := 0 }] } := by
  decide

/-- C13 as amended.  For `Add` and `Lead`, on a store where no persisted lead of
the customer is registered in a later Unix second than the persisted `leadAt`:
the same holds of the store after the call, the leads persisted by the call
included.  When the bulk persist cannot fail, the persisted `leadAt` after the
call is the one before the call or the registration time of a persisted lead. -/
theorem provision_keeps_leads_within_leadAt (sv : Services) (userInfo : Claims)
    (apiKey cid : GoString) (currentTime : Time) (candidate : Customer)
    (subs : List CustomerLeadParam) (p0 : Persisted)
    (h0 : p0.LeadAt = candidate.LeadAt) (hinv : withinLeadAt p0) :
    withinLeadAt
        (persisted sv p0 (AddProvision sv userInfo apiKey cid currentTime candidate subs).trace)
    ∧ ((∀ ls, sv.AddLead ls = none) →
        (persisted sv p0
            (AddProvision sv userInfo apiKey cid currentTime candidate subs).trace).LeadAt
          = p0.LeadAt
        ∨ ∃ t ∈ (persisted sv p0
            (AddProvision sv userInfo apiKey cid currentTime candidate subs).trace).regAts,
          (persisted sv p0
            (AddProvision sv userInfo apiKey cid currentTime candidate subs).trace).LeadAt
            = some t)
    ∧ withinLeadAt (persisted sv p0 (LeadProvision sv userInfo apiKey cid candidate subs).trace)
    ∧ ((∀ ls, sv.AddLead ls = none) →
        (persisted sv p0 (LeadProvision sv userInfo apiKey cid candidate subs).trace).LeadAt
          = p0.LeadAt
        ∨ ∃ t ∈ (persisted sv p0
            (LeadProvision sv userInfo apiKey cid candidate subs).trace).regAts,
          (persisted sv p0 (LeadProvision sv userInfo apiKey cid candidate subs).trace).LeadAt
            = some t) := by
  have hAdd : withinLeadAt
        (persisted sv p0 (AddProvision sv userInfo apiKey cid currentTime candidate subs).trace)
      ∧ ((∀ ls, sv.AddLead ls = none) →
        (persisted sv p0
            (AddProvision sv userInfo apiKey cid currentTime candidate subs).trace).LeadAt
          = p0.LeadAt
        ∨ ∃ t ∈ (persisted sv p0
            (AddProvision sv userInfo apiKey cid currentTime candidate subs).trace).regAts,
          (persisted sv p0
            (AddProvision sv userInfo apiKey cid currentTime candidate subs).trace).LeadAt
            = some t) := by
    cases hl : addLoop sv userInfo apiKey cid candidate.Album currentTime 0 subs
        { leads := [], LeadAt := candidate.LeadAt, trace := [] } with
    | next st =>
      obtain ⟨h1, h2, T, h3, h4⟩ :=
        addLoop_next sv userInfo apiKey cid candidate.Album currentTime subs 0 _ st hl
      simp only [List.nil_append] at h1 h3
      have hT : ∀ c ∈ st.trace, isAlbumCall c = true := fun c hc => (h4 c (h3 ▸ hc)).1
      have hmap := expectedLeads_map (addCreated sv apiKey candidate.Album)
        (addLeadRecord sv userInfo cid currentTime) (fun x => x.RegAt) (fun l => l.RegAt)
        (fun _ _ _ => rfl) 0 subs
      have hc : ({ candidate with LeadAt := st.LeadAt } : Customer).LeadAt
          = leadAtAfter p0.LeadAt (st.leads.map (fun l => l.RegAt)) := by
        show st.LeadAt = _
        rw [h2, h1, hmap, h0]
      rw [(AddProvision_trace sv userInfo apiKey cid currentTime candidate subs).1 st hl]
      exact withinLeadAt_tail sv p0 _ st.leads st.trace hT hinv hc
    | stop o =>
      rw [(AddProvision_trace sv userInfo apiKey cid currentTime candidate subs).2 o hl]
      have hall : ∀ c ∈ o.trace, isAlbumCall c = true := by
        rcases addLoop_stop sv userInfo apiKey cid candidate.Album currentTime subs 0 _ o hl
          with ⟨-, T, ht, hT⟩ | ⟨e, T, c, -, ht, hT, a2, -⟩
        · intro c hc
          rw [ht] at hc
          exact (hT c (by simpa using hc)).1
        · intro d hd
          rw [ht] at hd
          simp only [List.nil_append, List.mem_append, List.mem_singleton] at hd
          rcases hd with hd | hd
          · exact (hT d hd).1
          · rw [hd]; exact a2
      rw [persisted_of_album sv p0 o.trace hall]
      exact ⟨hinv, fun _ => Or.inl rfl⟩
  have hLead : withinLeadAt
        (persisted sv p0 (LeadProvision sv userInfo apiKey cid candidate subs).trace)
      ∧ ((∀ ls, sv.AddLead ls = none) →
        (persisted sv p0 (LeadProvision sv userInfo apiKey cid candidate subs).trace).LeadAt
          = p0.LeadAt
        ∨ ∃ t ∈ (persisted sv p0
            (LeadProvision sv userInfo apiKey cid candidate subs).trace).regAts,
          (persisted sv p0 (LeadProvision sv userInfo apiKey cid candidate subs).trace).LeadAt
            = some t) := by
    cases hl : leadLoop sv userInfo apiKey cid candidate.Album sv.now 0 subs
        { leads := [], LeadAt := candidate.LeadAt, trace := [] } with
    | next st =>
      obtain ⟨h1, h2, T, h3, h4⟩ :=
        leadLoop_next sv userInfo apiKey cid candidate.Album sv.now subs 0 _ st hl
      simp only [List.nil_append] at h1 h3
      have hT : ∀ c ∈ st.trace, isAlbumCall c = true := fun c hc => (h4 c (h3 ▸ hc)).1
      have hmap := expectedLeads_map (leadCreated sv apiKey candidate.Album)
        (leadLeadRecord sv userInfo cid sv.now) (fun x => x.RegAt) (fun l => l.RegAt)
        (fun _ _ _ => rfl) 0 subs
      have hc : ({ candidate with LeadAt := st.LeadAt } : Customer).LeadAt
          = leadAtAfter p0.LeadAt (st.leads.map (fun l => l.RegAt)) := by
        show st.LeadAt = _
        rw [h2, h1, hmap, h0]
      rw [(LeadProvision_trace sv userInfo apiKey cid candidate subs).1 st hl]
      exact withinLeadAt_tail sv p0 _ st.leads st.trace hT hinv hc
    | stop o =>
      rw [(LeadProvision_trace sv userInfo apiKey cid candidate subs).2 o hl]
      obtain ⟨-, T, ht, hT⟩ :=
        leadLoop_stop sv userInfo apiKey cid candidate.Album sv.now subs 0 _ o hl
      have hall : ∀ c ∈ o.trace, isAlbumCall c = true := by
        intro c hc
        rw [ht] at hc
        exact (hT c (by simpa using hc)).1
      rw [persisted_of_album sv p0 o.trace hall]
      exact ⟨hinv, fun _ => Or.inl rfl⟩
  exact ⟨hAdd.1, hAdd.2, hLead.1, hLead.2⟩

/-- Witness for C13 as amended: `Add` provisioning of the three sample
submissions on the empty store of a new customer. -/
theorem provision_keeps_leads_within_leadAt_witness :
    withinLeadAt (persisted sampleServices { LeadAt := none, regAts := [] }
      (AddProvision sampleServices sampleClaims [107] [99, 50] { sec := 1000, nsec := 0 }
        sampleCandidate sampleSubmissions).trace) :=
  (provision_keeps_leads_within_leadAt sampleServices sampleClaims [107] [99, 50]
    { sec := 1000, nsec := 0 } sampleCandidate sampleSubmissions
    { LeadAt := none, regAts := [] } rfl (fun _ h => by cases h)).1

end CustomerHandler
